import Mathlib

/-!
# Open Match matchmaking-function orchestrator (cmd/mmforc/main.go)

A shallow embedding of the orchestrator's control loop, of the worker and
evaluator launchers and of the job template builder, together with the
properties of the specification that were checked against them.

Conventions of the embedding.

* Go strings are Lean strings; `strings.Split` and `strconv.Atoi` are
  embedded on the character list of the string.
* A goroutine started with `go f(...)` is recorded as a spawn event of the
  tick that starts it; the body of the launcher is embedded as a sequential
  function of its own.
* The shared store, the clock and the container platform are the environment:
  every reply the code receives from them is an input of the embedded
  function, and every request the code sends is an event of its trace.
* `time.Time` is a number of nanoseconds and `time.Duration` a number of
  nanoseconds within the range of `int64`.  The deadline test
  `time.Since(start).Seconds() >= float64(n)` is embedded operation by
  operation on `float64` values: every operation is the exact result rounded
  to the nearest value with a significand of 53 bits, ties to even.
* A Go panic is the result `none`.
-/

namespace Mmforc

set_option maxRecDepth 100000

/-! ## Job template builder -/

/-- An environment variable of a container (`apiv1.EnvVar`). -/
structure EnvVar where
  Name : String
  Value : String
deriving DecidableEq, Repr

/-- A container of a pod (`apiv1.Container`), with the fields the builder sets. -/
structure Container where
  Name : String
  Image : String
  ImagePullPolicy : String
  Env : List EnvVar
deriving DecidableEq, Repr

/-- The pod specification (`apiv1.PodSpec`), with the fields the builder sets. -/
structure PodSpec where
  RestartPolicy : String
  ImagePullSecrets : List String
  Containers : List Container
deriving DecidableEq, Repr

/-- The pod template (`apiv1.PodTemplateSpec`): labels, annotations and pod spec. -/
structure PodTemplateSpec where
  Labels : List (String × String)
  Annotations : List (String × String)
  Spec : PodSpec
deriving DecidableEq, Repr

/-- The job specification (`batchv1.JobSpec`). -/
structure JobSpec where
  Completions : Int
  Template : PodTemplateSpec
deriving DecidableEq, Repr

/-- A job descriptor (`batchv1.Job`); `Name` is `ObjectMeta.Name`. -/
structure Job where
  Name : String
  Spec : JobSpec
deriving DecidableEq, Repr

/-- Embedding of `generateJobSpec` (main.go, lines 411-457). -/
def generateJobSpec (jobName : String) (imageName : String) : Job :=
  { Name := jobName
    Spec :=
      { Completions := 1
        Template :=
          { Labels := [("app", "mmf")]
            Annotations := [("profile", "exampleprofile")]
            Spec :=
              { RestartPolicy := "Never"
                ImagePullSecrets := ["aws-creds"]
                Containers :=
                  [{ Name := "mmf"
                     Image := imageName
                     ImagePullPolicy := "Always"
                     Env := [{ Name := "PROFILE", Value := jobName }] }] } } } }

/-! ## Strings: `strings.Split` and `strconv` -/

/-- Pieces of a character list between the occurrences of `sep`. -/
def splitChars (sep : Char) : List Char → List (List Char)
  | [] => [[]]
  | c :: cs =>
    if c = sep then [] :: splitChars sep cs
    else
      match splitChars sep cs with
      | [] => [[c]]
      | p :: ps => (c :: p) :: ps

/-- Embedding of `strings.Split(s, sep)` for a one-character separator: the
substrings of `s` between the occurrences of `sep` (all of them, `n + 1`
pieces for `n` occurrences). -/
def Split (s : String) (sep : Char) : List String :=
  (splitChars sep s.data).map String.mk

/-- Embedding of `strconv.Itoa`: the decimal text of an integer. -/
def Itoa (n : Int) : String := toString n

/-- Value of a list of decimal digits, most significant first. -/
def digitsValue (ds : List Char) : Nat :=
  ds.foldl (fun n ch => n * 10 + (ch.toNat - '0'.toNat)) 0

/-- Embedding of `strconv.Atoi` on a 64-bit platform: the value and whether
an error is returned.  A syntax error gives the value 0; a number outside the
range of `int` gives the nearest bound of the range (and an error). -/
def Atoi (s : String) : Int × Bool :=
  match s.data with
  | [] => (0, true)
  | c :: cs =>
    let neg := c = '-'
    let ds := if c = '-' ∨ c = '+' then cs else c :: cs
    if ds = [] ∨ ¬ ds.all Char.isDigit then (0, true)
    else
      let un := digitsValue ds
      if ¬ neg ∧ un ≥ 2 ^ 63 then (2 ^ 63 - 1, true)
      else if neg ∧ un > 2 ^ 63 then (-(2 ^ 63), true)
      else (if neg then -(un : Int) else (un : Int), false)

/-! ## The profile payload as seen through gjson -/

/-- The kinds of JSON value gjson distinguishes (`gjson.Type`). -/
inductive GType
  | tNull | tFalse | tNumber | tString | tTrue | tJSON
deriving DecidableEq, Repr

/-- Embedding of `gjson.Type.String`, the name of a kind. -/
def GType.name : GType → String
  | .tNull => "Null"
  | .tFalse => "False"
  | .tNumber => "Number"
  | .tString => "String"
  | .tTrue => "True"
  | .tJSON => "JSON"

/-- A JSON value found by gjson.  A number carries the text that
`Result.String` yields for it, a string its unescaped content, an array or
an object its raw JSON text and its elements (for an object: its members). -/
inductive JValue
  | null
  | bool (b : Bool)
  | num (text : String)
  | str (s : String)
  | arr (raw : String) (items : List JValue)
  | obj (raw : String) (members : List (String × JValue))

/-- A `gjson.Result`: `none` is the zero result of a path that does not
exist, `some v` a result positioned on the value `v`. -/
abbrev Result := Option JValue

/-- Embedding of `Result.Exists`. -/
def Result.Exists (t : Result) : Bool := t.isSome

/-- Embedding of the field `Result.Type`. -/
def Result.Type : Result → GType
  | none => .tNull
  | some .null => .tNull
  | some (.bool false) => .tFalse
  | some (.bool true) => .tTrue
  | some (.num _) => .tNumber
  | some (.str _) => .tString
  | some (.arr _ _) => .tJSON
  | some (.obj _ _) => .tJSON

/-- Embedding of `Result.String` for a result positioned on a value. -/
def JValue.String : JValue → String
  | .null => ""
  | .bool false => "false"
  | .bool true => "true"
  | .num text => text
  | .str s => s
  | .arr raw _ => raw
  | .obj raw _ => raw

/-- Embedding of `Result.String`; the zero result gives the empty string. -/
def Result.String : Result → String
  | none => ""
  | some v => v.String

/-- The values `Result.ForEach` passes to its iterator as second argument,
in order: the elements of an array, the member values of an object, and the
value itself for a value that is neither. -/
def Result.ForEach : Result → List JValue
  | none => []
  | some (.arr _ items) => items
  | some (.obj _ members) => members.map Prod.snd
  | some v => [v]

/-- The string `redisHelpers.Retrieve` returned for a profile, with what
gjson reports about it: `Valid` is `gjson.Valid(profile)` and `Get path` is
`gjson.Get(profile, path)`. -/
structure Payload where
  text : String
  Valid : Bool
  Get : String → Result

/-! ## Configuration and environment of the launchers -/

/-- The configuration values the orchestrator reads (viper keys). -/
structure Config where
  /-- Key `interval.evaluator`. -/
  intervalEvaluator : Int
  /-- Key `jsonkeys.mmfImages`. -/
  jsonkeysMmfImages : String
  /-- Keys `defaultImages.mmf.name` and `defaultImages.mmf.tag`. -/
  defaultMmfName : String
  defaultMmfTag : String
  /-- Keys `defaultImages.evaluator.name` and `defaultImages.evaluator.tag`. -/
  defaultEvalName : String
  defaultEvalTag : String

/-- What a launcher receives from its environment. -/
structure Env where
  /-- Reply of `redisHelpers.Retrieve(ctx, pool, key)`. -/
  Retrieve : String → Except String Payload
  /-- Error returned by `jobsClient.Create(job)` in a namespace, if any. -/
  Create : String → Job → Option String
  /-- Value of the environment variable `METADATA_NAMESPACE`. -/
  METADATA_NAMESPACE : String

/-- The OpenCensus measures the launchers record. -/
inductive Measure
  | mmforcMmfs | mmforcMmfFailures | mmforcEvals | mmforcEvalFailures
deriving DecidableEq, Repr

/-- A request a launcher sends to its environment. -/
inductive Action
  /-- Call `redisHelpers.Retrieve(ctx, pool, key)`. -/
  | retrieve (key : String)
  /-- Call `jobsClient.Create(job)` in namespace `ns`. -/
  | create (ns : String) (job : Job)
  /-- Call `stats.Record(ctx, m.M(1))`. -/
  | record (m : Measure)
deriving DecidableEq, Repr

/-- Is the action a job-create request? -/
def Action.isCreate : Action → Bool
  | .create _ _ => true
  | _ => false

/-! ## Job submitter and launchers -/

/-- Embedding of `submitJob` (main.go, lines 378-402): the error it returns
and the create request it sends. -/
def submitJob (env : Env) (imageName : String) (jobName : String) :
    Option String × List Action :=
  let job := generateJobSpec jobName imageName
  let ns := if env.METADATA_NAMESPACE.length = 0 then "default" else env.METADATA_NAMESPACE
  (env.Create ns job, [Action.create ns job])

/-- The image selection of `mmfunc` (main.go, lines 269-316): the value of
`imageNames` after the payload was examined, from the reply `r` of the store
and the value of `imageNames` passed in. -/
def resolveImages (cfg : Config) (r : Except String Payload) (imageNames : List String) :
    List String :=
  match r with
  | .error _ => imageNames
  | .ok profile =>
    let profileImageNames := profile.Get cfg.jsonkeysMmfImages
    if profile.Valid && profileImageNames.Exists then
      if profileImageNames.Type.name = "String" then
        [profileImageNames.String]
      else if profileImageNames.Type.name = "JSON" then
        profileImageNames.ForEach.foldl (fun _ name => [name.String]) []
      else imageNames
    else imageNames

/-- The value of `err` the launcher tests after a submission: the error of a
reply of the store, if it is one. -/
def errorOf {α : Type} : Except String α → Option String
  | .error e => some e
  | .ok _ => none

/-- The submission loop of `mmfunc` (main.go, lines 330-346).  The result of
`submitJob` is assigned to the blank identifier; the variable `err` that is
tested afterwards is the one assigned by `redisHelpers.Retrieve`. -/
def submitAll (env : Env) (err : Option String) (jobName : String) : List String → List Action
  | [] => []
  | imageName :: rest =>
    let sent := (submitJob env imageName jobName).2
    let recorded :=
      if err.isSome then Action.record Measure.mmforcMmfFailures
      else Action.record Measure.mmforcMmfs
    sent ++ [recorded] ++ submitAll env err jobName rest

/-- Embedding of `mmfunc` (main.go, lines 259-347): the requests the worker
launcher sends for the popped queue entry `profile`, at Unix time `unixNow`
seconds, with the default images `imageNames`; `none` is the panic of
`ids[1]` on an entry without a dot. -/
def mmfunc (env : Env) (cfg : Config) (unixNow : Int) (profile : String)
    (imageNames : List String) : Option (List Action) :=
  match Split profile '.' with
  | moID :: proID :: _ =>
    let timestamp := Itoa unixNow
    let jobName := timestamp ++ "." ++ moID ++ "." ++ proID
    let r := env.Retrieve proID
    let imageNames := resolveImages cfg r imageNames
    some (Action.retrieve proID :: submitAll env (errorOf r) jobName imageNames)
  | _ => none

/-- Embedding of `evaluator` (main.go, lines 350-375).  The variable `err`
tested after the submission is the package-level `err`, assigned by
`config.Read()` in `init`; it is the argument `err` here. -/
def evaluator (env : Env) (err : Option String) (unixNow : Int) (imageName : String) :
    List Action :=
  let timestamp := Itoa unixNow
  let jobName := timestamp ++ ".evaluator"
  let sent := (submitJob env imageName jobName).2
  let recorded :=
    if err.isSome then Action.record Measure.mmforcEvalFailures
    else Action.record Measure.mmforcEvals
  sent ++ [recorded]

/-! ## `float64` arithmetic and durations -/

/-- Floor of the binary logarithm of `n`, in at most `fuel` halvings. -/
def log2Aux : Nat → Nat → Nat
  | 0, _ => 0
  | fuel + 1, n => if n < 2 then 0 else log2Aux fuel (n / 2) + 1

/-- Floor of the binary logarithm of `n` (0 for 0); `n` halvings are enough. -/
def log2 (n : Nat) : Nat := log2Aux n n

/-- The fraction `a / (b * 2 ^ e)` as a pair of naturals. -/
def scale (a b : Nat) (e : Int) : Nat × Nat :=
  if 0 ≤ e then (a, b * 2 ^ e.toNat) else (a * 2 ^ (-e).toNat, b)

/-- The exponent `e` of the 53-bit significand of the positive fraction
`a / b`: the one with `2 ^ 52 ≤ a / (b * 2 ^ e) < 2 ^ 53`. -/
def exponentOf (a b : Nat) : Int :=
  let e : Int := (log2 a : Int) - (log2 b : Int) - 52
  let s := scale a b e
  if s.1 < 2 ^ 52 * s.2 then e - 1 else e

/-- The integer nearest to `a / b`, the even one of two at equal distance. -/
def roundHalfEven (a b : Nat) : Nat :=
  let q := a / b
  let r := a % b
  if 2 * r < b then q
  else if b < 2 * r then q + 1
  else if q % 2 = 0 then q else q + 1

/-- A finite `float64` value, the fraction `num / den`. -/
structure Float64 where
  num : Int
  den : Nat
deriving DecidableEq, Repr

/-- The `float64` nearest to the fraction `num / den`, ties to even: the
result of an IEEE 754 operation whose exact result is `num / den`.  Overflow
and subnormal numbers are not embedded; the operands of this program are
integers of 64 bits and quotients of at least `1 / 1000000000` in magnitude,
which stay in the normal range. -/
def roundToFloat64 (num : Int) (den : Nat) : Float64 :=
  if num = 0 then { num := 0, den := 1 }
  else
    let a := num.natAbs
    let e := exponentOf a den
    let s := scale a den e
    let m := roundHalfEven s.1 s.2
    let mag : Nat × Nat := if 0 ≤ e then (m * 2 ^ e.toNat, 1) else (m, 2 ^ (-e).toNat)
    { num := if num < 0 then -(mag.1 : Int) else (mag.1 : Int), den := mag.2 }

/-- Embedding of the conversion `float64(n)` of an integer. -/
def Float64.ofInt (n : Int) : Float64 := roundToFloat64 n 1

/-- Embedding of the addition of two `float64` values. -/
def Float64.add (x y : Float64) : Float64 :=
  roundToFloat64 (x.num * y.den + y.num * x.den) (x.den * y.den)

/-- Embedding of the division of two `float64` values, the divisor not zero. -/
def Float64.div (x y : Float64) : Float64 :=
  roundToFloat64 (x.num * y.den * y.num.sign) (x.den * y.num.natAbs)

/-- Embedding of the comparison `x >= y` of two `float64` values. -/
def Float64.ge (x y : Float64) : Bool :=
  decide (y.num * x.den ≤ x.num * y.den)

/-- The value of a `float64`, a rational number. -/
def Float64.val (x : Float64) : ℚ := (x.num : ℚ) / (x.den : ℚ)

/-- Embedding of `Duration.Seconds` (package time):
`sec := d / Second; nsec := d % Second;
return float64(sec) + float64(nsec)/1e9`, with Go's truncated division. -/
def Seconds (d : Int) : Float64 :=
  let sec := Int.tdiv d 1000000000
  let nsec := Int.tmod d 1000000000
  Float64.add (Float64.ofInt sec) (Float64.div (Float64.ofInt nsec) (Float64.ofInt 1000000000))

/-- Embedding of `time.Since(start)` at clock reading `now`: the difference
of the readings as a `Duration`, which saturates at the bounds of `int64`. -/
def Since (start now : Int) : Int :=
  let d := now - start
  if d < -(2 ^ 63) then -(2 ^ 63) else if 2 ^ 63 - 1 < d then 2 ^ 63 - 1 else d

/-! ## The orchestration loop -/

/-- The variables of `main` that live across ticks. -/
structure State where
  /-- The deadline clock `start`, in nanoseconds. -/
  start : Int
  checkProposals : Bool
deriving DecidableEq, Repr

/-- What one tick of the loop receives from the store and the clock. -/
structure TickInput where
  /-- Reply of `SPOP` on the profile queue. -/
  spop : Except String (List String)
  /-- Reply of `redisHelpers.Retrieve` for the key `concurrentMMFs`. -/
  concurrentMMFs : Except String String
  /-- Clock reading at the call `time.Since(start)`, in nanoseconds. -/
  sinceNow : Int
  /-- Reply of `redisHelpers.Count` on the proposal queue. -/
  proposals : Except String Int
  /-- Clock reading of `start = time.Now()`, in nanoseconds. -/
  resetNow : Int

/-- What one tick of the loop does, in order. -/
inductive Event
  /-- Statement `go mmfunc(ctx, profile, cfg, defaultMmfImages, clientset, &pool)`. -/
  | spawnMmfunc (profile : String) (imageNames : List String)
  /-- Call `redisHelpers.Increment` on a key. -/
  | Increment (key : String)
  /-- Call `redisHelpers.Retrieve` on a key. -/
  | Retrieve (key : String)
  /-- Call `redisHelpers.Count` on the proposal queue. -/
  | Count
  /-- Statement `go evaluator(ctx, cfg, defaultEvalImage, clientset)`, with the
  value of the tag `KeyEvalReason` in `ctx`. -/
  | spawnEvaluator (reason : Option String) (imageName : String)
  /-- Call `redisHelpers.Delete` on a key. -/
  | Delete (key : String)
  /-- Assignment `start = time.Now()`. -/
  | resetClock (t : Int)
  /-- Call `time.Sleep`, in milliseconds. -/
  | Sleep (ms : Nat)
deriving DecidableEq, Repr

/-- Is the event an evaluator launch? -/
def Event.isSpawnEvaluator : Event → Bool
  | .spawnEvaluator _ _ => true
  | _ => false

/-- The state of the loop when it is entered at clock reading `t0`
(main.go, lines 129-130). -/
def init (t0 : Int) : State := { start := t0, checkProposals := true }

/-- The value of `defaultMmfImages` (main.go, line 131). -/
def defaultMmfImages (cfg : Config) : List String :=
  [cfg.defaultMmfName ++ ":" ++ cfg.defaultMmfTag]

/-- The value of `defaultEvalImage` (main.go, line 132). -/
def defaultEvalImage (cfg : Config) : String :=
  cfg.defaultEvalName ++ ":" ++ cfg.defaultEvalTag

/-- Modelled from the spec: the reply of `redisHelpers.Retrieve` (package
internal/statestorage/redis) when the key is absent, a nil response; its
message is the one `main` compares the error with. -/
def nilReply : Except String String := .error "redigo: nil returned"

/-- The switch of main.go, lines 204-218: the value of `checkProposals` after
it and the value of the tag `KeyEvalReason`, from the value of
`checkProposals` before it, the duration `time.Since(start)` and
`numRunning`.  The first case is
`time.Since(start).Seconds() >= float64(cfg.GetInt("interval.evaluator"))`. -/
def trigger (cfg : Config) (checkProposals : Bool) (elapsed : Int) (numRunning : Int) :
    Bool × Option String :=
  if Float64.ge (Seconds elapsed) (Float64.ofInt cfg.intervalEvaluator) then
    (true, some "interval_exceeded")
  else if numRunning ≤ 0 then (true, some "mmfs_completed")
  else (checkProposals, none)

/-- The switch of main.go, lines 225-237: the evaluator launch, if any, from
the reply of `redisHelpers.Count`. -/
def launchOn (cfg : Config) (reason : Option String) : Except String Int → List Event
  | .error _ => []
  | .ok results =>
    if results = 0 then [] else [Event.spawnEvaluator reason (defaultEvalImage cfg)]

/-- The fan-out of main.go, lines 154-164: a launcher spawned and the counter
incremented for each popped profile, in order. -/
def fanOut (cfg : Config) (results : List String) : List Event :=
  results.flatMap fun profile =>
    [Event.spawnMmfunc profile (defaultMmfImages cfg), Event.Increment "concurrentMMFs"]

/-- Embedding of one iteration of the loop of `main` (main.go, lines
136-255); `none` is `panic(err)` after a failed pop.  An error of
`redisHelpers.Delete` is only logged and is no input. -/
def tick (cfg : Config) (st : State) (inp : TickInput) : Option (State × List Event) :=
  match inp.spop with
  | .error _ => none
  | .ok results =>
    let read := fanOut cfg results ++ [Event.Retrieve "concurrentMMFs"]
    match inp.concurrentMMFs with
    | .error e =>
      if e = "redigo: nil returned" then
        some ({ st with start := inp.resetNow },
          read ++ [Event.resetClock inp.resetNow, Event.Sleep 1000])
      else some (st, read)
    | .ok r =>
      let numRunning := (Atoi r).1
      let fire := trigger cfg st.checkProposals (Since st.start inp.sinceNow) numRunning
      if fire.1 then
        some ({ start := inp.resetNow, checkProposals := false },
          read ++ [Event.Count] ++ launchOn cfg fire.2 inp.proposals ++
            [Event.Delete "concurrentMMFs", Event.resetClock inp.resetNow, Event.Sleep 1000])
      else some (st, read ++ [Event.Sleep 1000])

/-- The loop run on a list of tick inputs: the final state and the events of
each tick; `none` when a tick panics. -/
def run (cfg : Config) : State → List TickInput → Option (State × List (List Event))
  | st, [] => some (st, [])
  | st, inp :: rest =>
    match tick cfg st inp with
    | none => none
    | some (st', evs) =>
      match run cfg st' rest with
      | none => none
      | some (fin, tr) => some (fin, evs :: tr)

/-- Does a tick with this input reach the trigger evaluation: was the counter
`concurrentMMFs` read successfully? -/
def TickInput.reachesTrigger (inp : TickInput) : Bool :=
  match inp.concurrentMMFs with
  | .ok _ => true
  | .error _ => false

/-- The clock reading of the last reset among the events, `t0` if there is none. -/
def lastReset (t0 : Int) (evs : List Event) : Int :=
  evs.foldl (fun acc e => match e with
    | .resetClock t => t
    | _ => acc) t0

/-! ## Scenarios -/

/-- The configuration of the scenarios: a deadline of 5 seconds and the
images path `images`. -/
def scenarioCfg : Config :=
  { intervalEvaluator := 5
    jsonkeysMmfImages := "images"
    defaultMmfName := "def/mmf"
    defaultMmfTag := "latest"
    defaultEvalName := "def/evaluator"
    defaultEvalTag := "latest" }

/-- The configuration of the scenarios with a deadline of `2 ^ 25` seconds. -/
def longDeadlineCfg : Config :=
  { scenarioCfg with intervalEvaluator := 33554432 }

/-- A tick one nanosecond before `2 ^ 25` seconds after the last reset at 0,
in which no profile is popped and the counter reads 3. -/
def nanosecondEarlyTick : TickInput :=
  { spop := .ok []
    concurrentMMFs := .ok "3"
    sinceNow := 33554431999999999
    proposals := .ok 2
    resetNow := 33554431999999999 }

/-- A tick `secs` seconds after process start in which no profile is popped,
the counter reads `counter` and the proposal queue has cardinality 2. -/
def tickAt (secs : Int) (counter : Except String String) : TickInput :=
  { spop := .ok []
    concurrentMMFs := counter
    sinceNow := secs * 1000000000
    proposals := .ok 2
    resetNow := secs * 1000000000 }

/-- Ten ticks, one second apart, in which no profile is popped and the key
concurrentMMFs is absent. -/
def deadlineTicks : List TickInput :=
  (List.range 10).map fun k => tickAt (k + 1) nilReply

/-- A store that holds `payload` at key `key` and nothing else, with a
platform on which every create request gives `createError`. -/
def storeWith (key : String) (payload : Payload) (createError : Option String) : Env :=
  { Retrieve := fun k => if k = key then .ok payload else .error "redigo: nil returned"
    Create := fun _ _ => createError
    METADATA_NAMESPACE := "" }

/-- A store without any profile payload, with a platform on which every
create request succeeds. -/
def emptyStore : Env :=
  { Retrieve := fun _ => .error "redigo: nil returned"
    Create := fun _ _ => none
    METADATA_NAMESPACE := "" }

/-- A valid JSON document whose value at the path `images` is `v`. -/
def imagesDoc (text : String) (v : JValue) : Payload :=
  { text := text
    Valid := true
    Get := fun path => if path = "images" then some v else none }

/-- The payload with a single image, `reg/foo:1`. -/
def singleImagePayload : Payload :=
  imagesDoc "\x7b\"images\":\"reg/foo:1\"\x7d" (.str "reg/foo:1")

/-- The payload with the images `a:1`, `b:2` and `c:3`. -/
def threeImagesPayload : Payload :=
  imagesDoc "\x7b\"images\":[\"a:1\",\"b:2\",\"c:3\"]\x7d"
    (.arr "[\"a:1\",\"b:2\",\"c:3\"]" [.str "a:1", .str "b:2", .str "c:3"])

/-- The payload whose images are the empty array. -/
def emptyArrayPayload : Payload :=
  imagesDoc "\x7b\"images\":[]\x7d" (.arr "[]" [])

/-- The payload whose value at the images path is an object. -/
def objectPayload : Payload :=
  imagesDoc "\x7b\"images\":\x7b\"main\":\"reg/foo:1\"\x7d\x7d"
    (.obj "\x7b\"main\":\"reg/foo:1\"\x7d" [("main", .str "reg/foo:1")])

/-- The payload whose value at the images path is an array of numbers. -/
def numberArrayPayload : Payload :=
  imagesDoc "\x7b\"images\":[1,2]\x7d" (.arr "[1,2]" [.num "1", .num "2"])

/-- The payload that is not JSON. -/
def notJsonPayload : Payload :=
  { text := "not json"
    Valid := false
    Get := fun _ => none }

/-- The descriptor `job` with its name, the image of its containers and the
value of their environment variables replaced. -/
def Job.retarget (job : Job) (jobName : String) (imageName : String) : Job :=
  { job with
    Name := jobName
    Spec := { job.Spec with
      Template := { job.Spec.Template with
        Spec := { job.Spec.Template.Spec with
          Containers := job.Spec.Template.Spec.Containers.map fun c =>
            { c with
              Image := imageName
              Env := c.Env.map fun e => { e with Value := jobName } } } } } }

/-! ## Properties of the job template builder -/

/-- C9: for every job name and image name, the descriptor built by
`generateJobSpec` has the job name as metadata name, completion count 1,
restart policy Never, exactly one container, with the given image, pull
policy Always and the single environment variable PROFILE whose value is the
job name, the pull secrets `[aws-creds]`, the label app=mmf and an annotation
with key profile; and the descriptor for any other pair of inputs is this
one with only the name, the image and the value of PROFILE replaced. -/
theorem generateJobSpec_shape (jobName imageName : String) :
    (generateJobSpec jobName imageName).Name = jobName ∧
    (generateJobSpec jobName imageName).Spec.Completions = 1 ∧
    (generateJobSpec jobName imageName).Spec.Template.Spec.RestartPolicy = "Never" ∧
    (∃ c : Container,
      (generateJobSpec jobName imageName).Spec.Template.Spec.Containers = [c] ∧
      c.Image = imageName ∧ c.ImagePullPolicy = "Always" ∧
      c.Env = [{ Name := "PROFILE", Value := jobName }]) ∧
    (generateJobSpec jobName imageName).Spec.Template.Spec.ImagePullSecrets = ["aws-creds"] ∧
    ("app", "mmf") ∈ (generateJobSpec jobName imageName).Spec.Template.Labels ∧
    (∃ v, ("profile", v) ∈ (generateJobSpec jobName imageName).Spec.Template.Annotations) ∧
    (∀ jobName2 imageName2 : String,
      generateJobSpec jobName2 imageName2 =
        (generateJobSpec jobName imageName).retarget jobName2 imageName2) := by
  refine ⟨rfl, rfl, rfl, ⟨_, rfl, rfl, rfl, rfl⟩, rfl, ?_, ⟨"exampleprofile", ?_⟩, ?_⟩
  · simp [generateJobSpec]
  · simp [generateJobSpec]
  · intro jobName2 imageName2
    rfl

/-! ## Properties of the `float64` rounding -/

/-- With enough halvings `log2Aux` is the floor of the binary logarithm. -/
theorem log2Aux_spec : ∀ (fuel n : Nat), n ≤ fuel → 0 < n →
    2 ^ log2Aux fuel n ≤ n ∧ n < 2 ^ (log2Aux fuel n + 1)
  | 0, n, h, h0 => by omega
  | fuel + 1, n, h, h0 => by
    unfold log2Aux
    split
    · constructor <;> simp <;> omega
    · rename_i h2
      have ih := log2Aux_spec fuel (n / 2) (by omega) (by omega)
      obtain ⟨ih1, ih2⟩ := ih
      rw [pow_succ] at ih2 ⊢
      rw [pow_succ (n := log2Aux fuel (n / 2) + 1), pow_succ]
      constructor <;> omega

/-- The function `log2` is the floor of the binary logarithm. -/
theorem log2_spec {n : Nat} (h0 : 0 < n) : 2 ^ log2 n ≤ n ∧ n < 2 ^ (log2 n + 1) :=
  log2Aux_spec n n le_rfl h0

/-- The denominator of a scaled fraction is positive. -/
theorem scale_snd_pos (a : Nat) {b : Nat} (e : Int) (hb : 0 < b) : 0 < (scale a b e).2 := by
  unfold scale
  split
  · exact Nat.mul_pos hb (Nat.pos_pow_of_pos _ (by norm_num))
  · exact hb

/-- The value of a scaled fraction. -/
theorem scale_val (a : Nat) {b : Nat} (e : Int) (hb : 0 < b) :
    ((scale a b e).1 : ℚ) / ((scale a b e).2 : ℚ) = (a : ℚ) / b / (2 : ℚ) ^ e := by
  have hbq : (b : ℚ) ≠ 0 := by exact_mod_cast hb.ne'
  unfold scale
  split
  · rename_i he
    have : (2 : ℚ) ^ e = (2 : ℚ) ^ e.toNat := by
      conv_lhs => rw [← Int.toNat_of_nonneg he]
      exact zpow_natCast _ _
    rw [this]
    push_cast
    field_simp
  · rename_i he
    have hne : 0 ≤ -e := by omega
    have : (2 : ℚ) ^ e = ((2 : ℚ) ^ (-e).toNat)⁻¹ := by
      have h2 : e = -((-e).toNat : ℤ) := by rw [Int.toNat_of_nonneg hne]; ring
      conv_lhs => rw [h2]
      rw [zpow_neg, zpow_natCast]
    rw [this]
    push_cast
    field_simp

/-- The fraction scaled by its exponent has a significand of 53 bits. -/
theorem exponentOf_spec {a b : Nat} (ha : 0 < a) (hb : 0 < b) :
    (2 : ℚ) ^ 52 ≤ (a : ℚ) / b / (2 : ℚ) ^ exponentOf a b ∧
      (a : ℚ) / b / (2 : ℚ) ^ exponentOf a b < (2 : ℚ) ^ 53 := by
  obtain ⟨ha1, ha2⟩ := log2_spec ha
  obtain ⟨hb1, hb2⟩ := log2_spec hb
  have hA1 : (2 : ℚ) ^ log2 a ≤ a := by exact_mod_cast ha1
  have hA2 : (a : ℚ) < 2 * 2 ^ log2 a := by
    have : (a : ℚ) < 2 ^ (log2 a + 1) := by exact_mod_cast ha2
    rw [pow_succ] at this; linarith
  have hB1 : (2 : ℚ) ^ log2 b ≤ b := by exact_mod_cast hb1
  have hB2 : (b : ℚ) < 2 * 2 ^ log2 b := by
    have : (b : ℚ) < 2 ^ (log2 b + 1) := by exact_mod_cast hb2
    rw [pow_succ] at this; linarith
  have hP : (0 : ℚ) < 2 ^ log2 a := by positivity
  have hQ : (0 : ℚ) < 2 ^ log2 b := by positivity
  have hAq : (0 : ℚ) < a := by exact_mod_cast ha
  have hBq : (0 : ℚ) < b := by exact_mod_cast hb
  have h2e : (2 : ℚ) ^ ((log2 a : ℤ) - (log2 b : ℤ) - 52) =
      (2 : ℚ) ^ log2 a / (2 : ℚ) ^ log2 b / (2 : ℚ) ^ 52 := by
    rw [zpow_sub₀ (by norm_num), zpow_sub₀ (by norm_num), zpow_natCast, zpow_natCast]
    norm_num
  have ht0 : (a : ℚ) / b / (2 : ℚ) ^ ((log2 a : ℤ) - (log2 b : ℤ) - 52) =
      (a : ℚ) * 2 ^ log2 b * 2 ^ 52 / (b * 2 ^ log2 a) := by
    rw [h2e]; field_simp; ring
  have hlow : (2 : ℚ) ^ 51 < (a : ℚ) * 2 ^ log2 b * 2 ^ 52 / (b * 2 ^ log2 a) := by
    rw [lt_div_iff₀ (by positivity)]
    have : (b : ℚ) * 2 ^ log2 a < 2 * (a * 2 ^ log2 b) := by nlinarith
    nlinarith
  have hhigh : (a : ℚ) * 2 ^ log2 b * 2 ^ 52 / (b * 2 ^ log2 a) < (2 : ℚ) ^ 53 := by
    rw [div_lt_iff₀ (by positivity)]
    have : (a : ℚ) * 2 ^ log2 b < 2 * (b * 2 ^ log2 a) := by nlinarith
    nlinarith
  unfold exponentOf
  simp only
  split
  · rename_i hlt
    have hs := scale_val a ((log2 a : ℤ) - (log2 b : ℤ) - 52) hb
    have hpos := scale_snd_pos a ((log2 a : ℤ) - (log2 b : ℤ) - 52) hb
    have hposq : (0 : ℚ) < ((scale a b ((log2 a : ℤ) - (log2 b : ℤ) - 52)).2 : ℚ) := by
      exact_mod_cast hpos
    have hltq : ((scale a b ((log2 a : ℤ) - (log2 b : ℤ) - 52)).1 : ℚ) <
        2 ^ 52 * ((scale a b ((log2 a : ℤ) - (log2 b : ℤ) - 52)).2 : ℚ) := by
      exact_mod_cast hlt
    have ht : (a : ℚ) / b / (2 : ℚ) ^ ((log2 a : ℤ) - (log2 b : ℤ) - 52) < 2 ^ 52 := by
      rw [← hs, div_lt_iff₀ hposq]; exact hltq
    have hstep : (a : ℚ) / b / (2 : ℚ) ^ ((log2 a : ℤ) - (log2 b : ℤ) - 52 - 1) =
        2 * ((a : ℚ) / b / (2 : ℚ) ^ ((log2 a : ℤ) - (log2 b : ℤ) - 52)) := by
      rw [zpow_sub₀ (by norm_num : (2 : ℚ) ≠ 0) _ 1]
      field_simp
      ring
    rw [hstep]
    rw [ht0] at ht ⊢
    constructor <;> linarith
  · rename_i hlt
    have hs := scale_val a ((log2 a : ℤ) - (log2 b : ℤ) - 52) hb
    have hpos := scale_snd_pos a ((log2 a : ℤ) - (log2 b : ℤ) - 52) hb
    have hposq : (0 : ℚ) < ((scale a b ((log2 a : ℤ) - (log2 b : ℤ) - 52)).2 : ℚ) := by
      exact_mod_cast hpos
    have hltq : (2 : ℚ) ^ 52 * ((scale a b ((log2 a : ℤ) - (log2 b : ℤ) - 52)).2 : ℚ) ≤
        ((scale a b ((log2 a : ℤ) - (log2 b : ℤ) - 52)).1 : ℚ) := by
      exact_mod_cast Nat.le_of_not_lt hlt
    have ht : (2 : ℚ) ^ 52 ≤ (a : ℚ) / b / (2 : ℚ) ^ ((log2 a : ℤ) - (log2 b : ℤ) - 52) := by
      rw [← hs, le_div_iff₀ hposq]; exact hltq
    rw [ht0] at ht ⊢
    exact ⟨ht, hhigh⟩

/-- The rounding to an integer is off by at most a half and does not cross
an integer. -/
theorem roundHalfEven_spec (a : Nat) {b : Nat} (hb : 0 < b) :
    |(roundHalfEven a b : ℚ) - (a : ℚ) / b| ≤ 1 / 2 ∧
    (∀ j : Nat, (j : ℚ) ≤ (a : ℚ) / b → j ≤ roundHalfEven a b) ∧
    (∀ j : Nat, (a : ℚ) / b ≤ (j : ℚ) → roundHalfEven a b ≤ j) := by
  have hbq : (0 : ℚ) < b := by exact_mod_cast hb
  have hdm : b * (a / b) + a % b = a := Nat.div_add_mod a b
  have hr : a % b < b := Nat.mod_lt a hb
  have hdmq : (b : ℚ) * ((a / b : Nat) : ℚ) + ((a % b : Nat) : ℚ) = a := by exact_mod_cast hdm
  have hrq : ((a % b : Nat) : ℚ) < b := by exact_mod_cast hr
  have hr0 : (0 : ℚ) ≤ ((a % b : Nat) : ℚ) := by positivity
  have hjlow : ∀ j : Nat, (j : ℚ) ≤ (a : ℚ) / b → j ≤ a / b := by
    intro j hj
    rw [le_div_iff₀ hbq] at hj
    have : j * b ≤ a := by exact_mod_cast hj
    exact (Nat.le_div_iff_mul_le hb).2 this
  have hjhigh : ∀ j : Nat, (a : ℚ) / b ≤ (j : ℚ) → a / b ≤ j ∧ (a / b = j → a % b = 0) := by
    intro j hj
    rw [div_le_iff₀ hbq] at hj
    have h1 : a ≤ j * b := by exact_mod_cast hj
    constructor
    · exact Nat.div_le_of_le_mul (by rw [Nat.mul_comm]; exact h1)
    · intro h
      rw [← h] at h1
      have : b * (a / b) = a / b * b := Nat.mul_comm _ _
      omega
  have hval : (a : ℚ) / b = ((a / b : Nat) : ℚ) + ((a % b : Nat) : ℚ) / b := by
    field_simp; linarith
  unfold roundHalfEven
  simp only
  split
  · rename_i h1
    have h1q : 2 * ((a % b : Nat) : ℚ) < b := by exact_mod_cast h1
    refine ⟨?_, hjlow, ?_⟩
    · rw [hval, abs_le]
      have : ((a % b : Nat) : ℚ) / b ≤ 1 / 2 := by rw [div_le_iff₀ hbq]; linarith
      have : 0 ≤ ((a % b : Nat) : ℚ) / b := by positivity
      constructor <;> linarith
    · intro j hj; exact (hjhigh j hj).1
  · split
    · rename_i h1 h2
      have h2q : (b : ℚ) < 2 * ((a % b : Nat) : ℚ) := by exact_mod_cast h2
      refine ⟨?_, ?_, ?_⟩
      · rw [hval, abs_le]
        have : 1 / 2 ≤ ((a % b : Nat) : ℚ) / b := by rw [le_div_iff₀ hbq]; linarith
        have : ((a % b : Nat) : ℚ) / b ≤ 1 := by rw [div_le_iff₀ hbq]; linarith
        push_cast
        constructor <;> linarith
      · intro j hj; exact Nat.le_succ_of_le (hjlow j hj)
      · intro j hj
        obtain ⟨h3, h4⟩ := hjhigh j hj
        rcases Nat.lt_or_ge (a / b) j with h5 | h5
        · omega
        · have := h4 (by omega); omega
    · rename_i h1 h2
      have heq : 2 * (a % b) = b := by omega
      have heqq : 2 * ((a % b : Nat) : ℚ) = b := by exact_mod_cast heq
      have hhalf : ((a % b : Nat) : ℚ) / b = 1 / 2 := by
        rw [div_eq_iff hbq.ne']; linarith
      split
      · refine ⟨?_, hjlow, ?_⟩
        · rw [hval, hhalf, abs_le]; constructor <;> linarith
        · intro j hj; exact (hjhigh j hj).1
      · refine ⟨?_, ?_, ?_⟩
        · rw [hval, hhalf, abs_le]; push_cast; constructor <;> linarith
        · intro j hj; exact Nat.le_succ_of_le (hjlow j hj)
        · intro j hj
          obtain ⟨h3, h4⟩ := hjhigh j hj
          rcases Nat.lt_or_ge (a / b) j with h5 | h5
          · omega
          · have := h4 (by omega); omega

/-- The significand and the exponent of the rounding of a positive fraction. -/
theorem round_pos_val {a : Nat} (b : Nat) (ha : 0 < a) :
    0 < (roundToFloat64 (a : ℤ) b).den ∧
      (roundToFloat64 (a : ℤ) b).val =
        (roundHalfEven (scale a b (exponentOf a b)).1 (scale a b (exponentOf a b)).2 : ℚ) *
          (2 : ℚ) ^ exponentOf a b := by
  have hne : ¬ ((a : ℤ) = 0) := by exact_mod_cast ha.ne'
  have hnn : ¬ ((a : ℤ) < 0) := by exact_mod_cast Nat.not_lt_zero a
  unfold roundToFloat64 Float64.val
  simp only [hne, hnn, if_false, Int.natAbs_ofNat]
  split
  · rename_i he
    have : (2 : ℚ) ^ exponentOf a b = (2 : ℚ) ^ (exponentOf a b).toNat := by
      conv_lhs => rw [← Int.toNat_of_nonneg he]
      exact zpow_natCast _ _
    rw [this]
    refine ⟨Nat.one_pos, ?_⟩
    push_cast
    simp
  · rename_i he
    have hn : 0 ≤ -exponentOf a b := by omega
    have : (2 : ℚ) ^ exponentOf a b = ((2 : ℚ) ^ (-exponentOf a b).toNat)⁻¹ := by
      have h2 : exponentOf a b = -((-exponentOf a b).toNat : ℤ) := by
        rw [Int.toNat_of_nonneg hn]; ring
      conv_lhs => rw [h2]
      rw [zpow_neg, zpow_natCast]
    rw [this]
    refine ⟨Nat.pos_pow_of_pos _ (by norm_num), ?_⟩
    push_cast
    rw [div_eq_mul_inv]

/-- A power of two with an integer exponent is the inverse of a natural power
or at least 2. -/
theorem zpow_two_cases (e : ℤ) :
    (e ≤ 0 → ∃ p : Nat, (2 : ℚ) ^ e * (2 : ℚ) ^ p = 1) ∧ (0 < e → 2 ≤ (2 : ℚ) ^ e) := by
  constructor
  · intro h
    obtain ⟨p, hp⟩ : ∃ p : Nat, e = -(p : ℤ) := ⟨(-e).toNat, by omega⟩
    refine ⟨p, ?_⟩
    rw [hp, zpow_neg, zpow_natCast]
    field_simp
  · intro h
    have : (2 : ℚ) ^ (1 : ℤ) ≤ (2 : ℚ) ^ e := zpow_le_zpow_right₀ (by norm_num) (by omega)
    simpa using this

/-- The rounding of a positive fraction: it does not cross an integer of at
most 53 bits, and below `2 ^ k` it is off by at most `2 ^ k / 2 ^ 54`. -/
theorem round_pos_props {a b : Nat} (ha : 0 < a) (hb : 0 < b) :
    0 < (roundToFloat64 (a : ℤ) b).den ∧
    (∀ j : Nat, j ≤ 2 ^ 53 → (j : ℚ) ≤ (a : ℚ) / b → (j : ℚ) ≤ (roundToFloat64 (a : ℤ) b).val) ∧
    (∀ j : Nat, j ≤ 2 ^ 53 → (a : ℚ) / b ≤ (j : ℚ) → (roundToFloat64 (a : ℤ) b).val ≤ (j : ℚ)) ∧
    (∀ k : Nat, (a : ℚ) / b < (2 : ℚ) ^ k →
      |(roundToFloat64 (a : ℤ) b).val - (a : ℚ) / b| ≤ (2 : ℚ) ^ k / (2 : ℚ) ^ 54) := by
  obtain ⟨hden, hval⟩ := round_pos_val b ha
  obtain ⟨hlo, hhi⟩ := exponentOf_spec ha hb
  have hspos := scale_snd_pos a (exponentOf a b) hb
  have hsval := scale_val a (exponentOf a b) hb
  obtain ⟨herr, hjlo, hjhi⟩ :=
    roundHalfEven_spec (scale a b (exponentOf a b)).1 hspos
  rw [hsval] at herr hjlo hjhi
  have hwcase := zpow_two_cases (exponentOf a b)
  have hwpos : (0 : ℚ) < (2 : ℚ) ^ exponentOf a b := by positivity
  have hzadd : (2 : ℚ) ^ (52 + exponentOf a b) = (2 : ℚ) ^ 52 * (2 : ℚ) ^ exponentOf a b := by
    rw [zpow_add₀ (by norm_num)]; norm_num
  have hzmono : ∀ k : Nat, (2 : ℚ) ^ (52 + exponentOf a b) < (2 : ℚ) ^ k →
      (2 : ℚ) ^ exponentOf a b ≤ (2 : ℚ) ^ k / (2 : ℚ) ^ 53 := by
    intro k hlt2
    rw [← zpow_natCast (2 : ℚ) k] at hlt2
    have hlt3 : 52 + exponentOf a b < (k : ℤ) :=
      (zpow_lt_zpow_iff_right₀ (by norm_num)).1 hlt2
    have hle : (2 : ℚ) ^ exponentOf a b ≤ (2 : ℚ) ^ ((k : ℤ) - 53) :=
      zpow_le_zpow_right₀ (by norm_num) (by omega)
    have h53 : (2 : ℚ) ^ (53 : ℤ) = (2 : ℚ) ^ (53 : ℕ) := by norm_num
    rw [zpow_sub₀ (by norm_num), zpow_natCast, h53] at hle
    exact hle
  generalize exponentOf a b = e at *
  generalize roundHalfEven (scale a b e).1 (scale a b e).2 = m at *
  generalize (2 : ℚ) ^ e = w at *
  have hab : (a : ℚ) / b = (a : ℚ) / b / w * w := by field_simp; ring
  generalize (a : ℚ) / b / w = t at *
  have hc52 : (((2 : ℕ) ^ 52 : ℕ) : ℚ) = (2 : ℚ) ^ 52 := by push_cast; ring
  have hm52 : (2 : ℚ) ^ 52 ≤ (m : ℚ) := by
    have := hjlo (2 ^ 52) (by rw [hc52]; exact hlo)
    rw [← hc52]; exact_mod_cast this
  refine ⟨hden, ?_, ?_, ?_⟩
  · intro j hj hja
    rw [hval]
    rcases le_or_lt e 0 with h0 | h0
    · obtain ⟨p, hp⟩ := hwcase.1 h0
      have hp2 : (0 : ℚ) < (2 : ℚ) ^ p := by positivity
      have hjt : ((j * 2 ^ p : Nat) : ℚ) ≤ t := by
        push_cast
        rw [hab] at hja
        calc (j : ℚ) * 2 ^ p ≤ t * w * 2 ^ p := by nlinarith
          _ = t := by rw [mul_assoc, hp, mul_one]
      have hmj := hjlo (j * 2 ^ p) hjt
      have hmjq : (j : ℚ) * 2 ^ p ≤ (m : ℚ) := by exact_mod_cast hmj
      calc (j : ℚ) = j * (2 ^ p * w) := by rw [mul_comm ((2 : ℚ) ^ p), hp, mul_one]
        _ = j * 2 ^ p * w := by ring
        _ ≤ m * w := by nlinarith
    · have hw2 := hwcase.2 h0
      have hjq : (j : ℚ) ≤ 2 ^ 53 := by exact_mod_cast hj
      have h1 : (2 : ℚ) ^ 52 * 2 ≤ (m : ℚ) * w :=
        mul_le_mul hm52 hw2 (by norm_num) (le_trans (by positivity) hm52)
      linarith
  · intro j hj hja
    rw [hval]
    rcases le_or_lt e 0 with h0 | h0
    · obtain ⟨p, hp⟩ := hwcase.1 h0
      have hp2 : (0 : ℚ) < (2 : ℚ) ^ p := by positivity
      have hjt : t ≤ ((j * 2 ^ p : Nat) : ℚ) := by
        push_cast
        rw [hab] at hja
        calc t = t * w * 2 ^ p := by rw [mul_assoc, hp, mul_one]
          _ ≤ (j : ℚ) * 2 ^ p := by nlinarith
      have hmj := hjhi (j * 2 ^ p) hjt
      have hmjq : (m : ℚ) ≤ (j : ℚ) * 2 ^ p := by exact_mod_cast hmj
      calc (m : ℚ) * w ≤ j * 2 ^ p * w := by nlinarith
        _ = j * (2 ^ p * w) := by ring
        _ = j := by rw [mul_comm ((2 : ℚ) ^ p), hp, mul_one]
    · have hw2 := hwcase.2 h0
      have hjq : (j : ℚ) ≤ 2 ^ 53 := by exact_mod_cast hj
      rw [hab] at hja
      have h1 : (2 : ℚ) ^ 52 * w ≤ t * w := mul_le_mul_of_nonneg_right hlo hwpos.le
      have hwle : w ≤ 2 := by linarith
      have hweq : w = 2 := le_antisymm hwle hw2
      rw [hweq] at hja h1 ⊢
      have hc : (((2 : ℕ) ^ 52 : ℕ) : ℚ) = (2 : ℚ) ^ 52 := by push_cast; ring
      have hm2 := hjhi (2 ^ 52) (by rw [hc]; linarith)
      have hm2q : (m : ℚ) ≤ 2 ^ 52 := by rw [← hc]; exact_mod_cast hm2
      linarith
  · intro k hk
    rw [hval, hab]
    have hfac : (m : ℚ) * w - t * w = ((m : ℚ) - t) * w := by ring
    rw [hfac, abs_mul, abs_of_pos hwpos]
    have hwk : w ≤ (2 : ℚ) ^ k / (2 : ℚ) ^ 53 := by
      apply hzmono k
      rw [hzadd]
      rw [hab] at hk
      have h1 : (2 : ℚ) ^ 52 * w ≤ t * w := mul_le_mul_of_nonneg_right hlo hwpos.le
      linarith
    have h54 : (2 : ℚ) ^ k / (2 : ℚ) ^ 54 = 1 / 2 * ((2 : ℚ) ^ k / (2 : ℚ) ^ 53) := by
      rw [pow_succ (n := 53)]; field_simp; ring
    rw [h54]
    exact mul_le_mul herr hwk hwpos.le (by norm_num)

/-- The rounding of the negative of a positive fraction is the negative of
its rounding. -/
theorem round_neg_val {a : Nat} (b : Nat) (ha : 0 < a) :
    (roundToFloat64 (-(a : ℤ)) b).den = (roundToFloat64 (a : ℤ) b).den ∧
      (roundToFloat64 (-(a : ℤ)) b).val = -(roundToFloat64 (a : ℤ) b).val := by
  have hne : ¬ ((a : ℤ) = 0) := by exact_mod_cast ha.ne'
  have hnn : ¬ ((a : ℤ) < 0) := by exact_mod_cast Nat.not_lt_zero a
  have hne2 : ¬ (-(a : ℤ) = 0) := by omega
  have hnn2 : -(a : ℤ) < 0 := by omega
  unfold roundToFloat64 Float64.val
  simp only [hne, hnn, hne2, hnn2, if_false, if_true, Int.natAbs_ofNat, Int.natAbs_neg]
  refine ⟨trivial, ?_⟩
  push_cast
  ring

/-- The rounding to `float64` of a fraction with a positive denominator: it
does not cross an integer of at most 53 bits, and for a fraction below
`2 ^ k` in magnitude it is off by at most `2 ^ k / 2 ^ 54`. -/
theorem round_spec (N : ℤ) {D : Nat} (hD : 0 < D) :
    0 < (roundToFloat64 N D).den ∧
    (∀ j : ℤ, |j| ≤ 2 ^ 53 → (j : ℚ) ≤ (N : ℚ) / D → (j : ℚ) ≤ (roundToFloat64 N D).val) ∧
    (∀ j : ℤ, |j| ≤ 2 ^ 53 → (N : ℚ) / D ≤ (j : ℚ) → (roundToFloat64 N D).val ≤ (j : ℚ)) ∧
    (∀ k : Nat, |(N : ℚ) / D| < (2 : ℚ) ^ k →
      |(roundToFloat64 N D).val - (N : ℚ) / D| ≤ (2 : ℚ) ^ k / (2 : ℚ) ^ 54) := by
  have hDq : (0 : ℚ) < D := by exact_mod_cast hD
  rcases lt_trichotomy N 0 with hN | hN | hN
  · obtain ⟨a, rfl⟩ : ∃ a : Nat, N = -(a : ℤ) := ⟨N.natAbs, by omega⟩
    have ha : 0 < a := by omega
    obtain ⟨hden, hlo, hhi, herr⟩ := round_pos_props ha hD
    obtain ⟨hd2, hv2⟩ := round_neg_val D ha
    have hq : (((-(a : ℤ) : ℤ) : ℚ)) / D = -((a : ℚ) / D) := by push_cast; ring
    have hqpos : (0 : ℚ) < (a : ℚ) / D := by positivity
    have hrpos : (0 : ℚ) ≤ (roundToFloat64 (a : ℤ) D).val := by
      have := hlo 0 (by norm_num) (by push_cast; exact hqpos.le)
      exact_mod_cast this
    rw [hd2, hv2, hq]
    refine ⟨hden, ?_, ?_, ?_⟩
    · intro j hj hjq
      have hj0 : j ≤ 0 := by
        by_contra hc
        have : (1 : ℚ) ≤ (j : ℚ) := by exact_mod_cast (by omega : (1 : ℤ) ≤ j)
        linarith
      obtain ⟨i, rfl⟩ : ∃ i : Nat, j = -(i : ℤ) := ⟨j.natAbs, by omega⟩
      have hi : i ≤ 2 ^ 53 := by
        rw [abs_neg] at hj
        have : ((i : ℤ)) ≤ 2 ^ 53 := le_trans (le_abs_self _) hj
        exact_mod_cast this
      have := hhi i hi (by push_cast at hjq; linarith)
      push_cast
      linarith
    · intro j hj hjq
      rcases le_or_lt 0 j with h0 | h0
      · have : (0 : ℚ) ≤ (j : ℚ) := by exact_mod_cast h0
        linarith
      · obtain ⟨i, rfl⟩ : ∃ i : Nat, j = -(i : ℤ) := ⟨j.natAbs, by omega⟩
        have hi : i ≤ 2 ^ 53 := by
          rw [abs_neg] at hj
          have : ((i : ℤ)) ≤ 2 ^ 53 := le_trans (le_abs_self _) hj
          exact_mod_cast this
        have := hlo i hi (by push_cast at hjq; linarith)
        push_cast
        linarith
    · intro k hk
      rw [abs_neg] at hk
      have := herr k (by rwa [abs_of_pos hqpos] at hk)
      have hsym : -(roundToFloat64 (a : ℤ) D).val - -((a : ℚ) / D) =
          -((roundToFloat64 (a : ℤ) D).val - (a : ℚ) / D) := by ring
      rw [hsym, abs_neg]
      exact this
  · subst hN
    have hr : roundToFloat64 0 D = { num := 0, den := 1 } := by simp [roundToFloat64]
    rw [hr]
    simp only [Float64.val, Int.cast_zero, zero_div, Nat.cast_one, sub_zero, abs_zero]
    refine ⟨Nat.one_pos, fun j _ h => h, fun j _ h => h, fun k _ => by positivity⟩
  · obtain ⟨a, rfl⟩ : ∃ a : Nat, N = (a : ℤ) := ⟨N.natAbs, by omega⟩
    have ha : 0 < a := by omega
    obtain ⟨hden, hlo, hhi, herr⟩ := round_pos_props ha hD
    have hq : (((a : ℤ) : ℤ) : ℚ) / D = (a : ℚ) / D := by push_cast; ring
    have hqpos : (0 : ℚ) < (a : ℚ) / D := by positivity
    have hrpos : (0 : ℚ) ≤ (roundToFloat64 (a : ℤ) D).val := by
      have := hlo 0 (by norm_num) (by push_cast; exact hqpos.le)
      exact_mod_cast this
    rw [hq]
    refine ⟨hden, ?_, ?_, ?_⟩
    · intro j hj hjq
      rcases le_or_lt j 0 with h0 | h0
      · have : (j : ℚ) ≤ 0 := by exact_mod_cast h0
        linarith
      · obtain ⟨i, rfl⟩ : ∃ i : Nat, j = (i : ℤ) := ⟨j.natAbs, by omega⟩
        have hi : i ≤ 2 ^ 53 := by
          have : ((i : ℤ)) ≤ 2 ^ 53 := le_trans (le_abs_self _) hj
          exact_mod_cast this
        have := hlo i hi (by push_cast at hjq; linarith)
        push_cast
        linarith
    · intro j hj hjq
      have hj0 : 0 ≤ j := by
        by_contra hc
        have : (j : ℚ) ≤ -1 := by exact_mod_cast (by omega : j ≤ -1)
        linarith
      obtain ⟨i, rfl⟩ : ∃ i : Nat, j = (i : ℤ) := ⟨j.natAbs, by omega⟩
      have hi : i ≤ 2 ^ 53 := by
        have : ((i : ℤ)) ≤ 2 ^ 53 := le_trans (le_abs_self _) hj
        exact_mod_cast this
      have := hhi i hi (by push_cast at hjq; linarith)
      push_cast
      linarith
    · intro k hk
      exact herr k (by rwa [abs_of_pos hqpos] at hk)

/-- The conversion of an integer of at most 53 bits to `float64` is exact. -/
theorem ofInt_val {n : ℤ} (hn : |n| ≤ 2 ^ 53) :
    0 < (Float64.ofInt n).den ∧ (Float64.ofInt n).val = (n : ℚ) := by
  obtain ⟨hden, hlo, hhi, -⟩ := round_spec n Nat.one_pos
  have h1 := hlo n hn (by simp)
  have h2 := hhi n hn (by simp)
  exact ⟨hden, le_antisymm h2 h1⟩

/-- The comparison of two `float64` values compares their values. -/
theorem ge_iff {x y : Float64} (hx : 0 < x.den) (hy : 0 < y.den) :
    Float64.ge x y = true ↔ y.val ≤ x.val := by
  have hxq : (0 : ℚ) < x.den := by exact_mod_cast hx
  have hyq : (0 : ℚ) < y.den := by exact_mod_cast hy
  unfold Float64.ge Float64.val
  rw [decide_eq_true_iff, div_le_div_iff₀ hyq hxq]
  constructor
  · intro h; exact_mod_cast h
  · intro h; exact_mod_cast h

/-- The sum of two `float64` values is the rounding of the sum of their values. -/
theorem add_round {x y : Float64} (hx : 0 < x.den) (hy : 0 < y.den) :
    ∃ (N : ℤ) (D : Nat), 0 < D ∧ (N : ℚ) / D = x.val + y.val ∧
      Float64.add x y = roundToFloat64 N D := by
  have hxq : (x.den : ℚ) ≠ 0 := by exact_mod_cast hx.ne'
  have hyq : (y.den : ℚ) ≠ 0 := by exact_mod_cast hy.ne'
  refine ⟨x.num * y.den + y.num * x.den, x.den * y.den, Nat.mul_pos hx hy, ?_, rfl⟩
  unfold Float64.val
  push_cast
  field_simp

/-- The quotient of a `float64` value by a positive one is the rounding of
the quotient of their values. -/
theorem div_round {x y : Float64} (hx : 0 < x.den) (hy : 0 < y.den) (hpos : 0 < y.val) :
    ∃ (N : ℤ) (D : Nat), 0 < D ∧ (N : ℚ) / D = x.val / y.val ∧
      Float64.div x y = roundToFloat64 N D := by
  have hxq : (x.den : ℚ) ≠ 0 := by exact_mod_cast hx.ne'
  have hyq : (0 : ℚ) < y.den := by exact_mod_cast hy
  have hnum : 0 < y.num := by
    unfold Float64.val at hpos
    have : (0 : ℚ) < (y.num : ℚ) := by
      by_contra hc
      have hle : (y.num : ℚ) ≤ 0 := not_lt.1 hc
      have := div_nonpos_of_nonpos_of_nonneg hle hyq.le
      linarith
    exact_mod_cast this
  have hnumq : (0 : ℚ) < (y.num : ℚ) := by exact_mod_cast hnum
  have hsign : y.num.sign = 1 := Int.sign_eq_one_of_pos hnum
  have habsq : ((y.num.natAbs : ℕ) : ℚ) = (y.num : ℚ) := by
    rw [Nat.cast_natAbs, abs_of_pos hnum]
  refine ⟨x.num * y.den * y.num.sign, x.den * y.num.natAbs,
    Nat.mul_pos hx (by omega), ?_, rfl⟩
  unfold Float64.val
  rw [hsign]
  push_cast
  rw [habsq]
  field_simp

/-- Go's truncated division of a duration by a second. -/
theorem tdiv_tmod_second (d : ℤ) :
    d = 1000000000 * Int.tdiv d 1000000000 + Int.tmod d 1000000000 ∧
    (0 ≤ d → 0 ≤ Int.tmod d 1000000000 ∧ Int.tmod d 1000000000 < 1000000000) ∧
    (d < 0 → -1000000000 < Int.tmod d 1000000000 ∧ Int.tmod d 1000000000 ≤ 0) := by
  have h1 := Int.tdiv_add_tmod d 1000000000
  refine ⟨h1.symm, ?_, ?_⟩
  · intro h0
    exact ⟨Int.tmod_nonneg _ h0, Int.tmod_lt_of_pos _ (by norm_num)⟩
  · intro h0
    have h2 := Int.tdiv_add_tmod (-d) 1000000000
    have h3 : Int.tdiv (-d) 1000000000 = -Int.tdiv d 1000000000 := Int.neg_tdiv _ _
    have h4 := Int.tmod_nonneg (1000000000 : ℤ) (by omega : 0 ≤ -d)
    have h5 := Int.tmod_lt_of_pos (-d) (by norm_num : (0 : ℤ) < 1000000000)
    rw [h3] at h2
    constructor <;> omega

/-- For a deadline of at most `2 ^ 24` seconds in magnitude, the comparison
of `Duration.Seconds` with the deadline in `float64` agrees with the
comparison of the nanoseconds in exact arithmetic. -/
theorem deadline_exact {d n : ℤ} (hd : -(2 ^ 63) ≤ d ∧ d ≤ 2 ^ 63 - 1)
    (hn : -(2 ^ 24) < n ∧ n ≤ 2 ^ 24) :
    Float64.ge (Seconds d) (Float64.ofInt n) = true ↔ n * 1000000000 ≤ d := by
  obtain ⟨hsplit, hpos, hneg⟩ := tdiv_tmod_second d
  have hsec : |Int.tdiv d 1000000000| ≤ 2 ^ 53 := by
    rw [abs_le]
    rcases lt_or_le d 0 with h | h
    · have := hneg h; constructor <;> omega
    · have := hpos h; constructor <;> omega
  have hnsec : |Int.tmod d 1000000000| ≤ 2 ^ 53 := by
    rw [abs_le]
    rcases lt_or_le d 0 with h | h
    · have := hneg h; constructor <;> omega
    · have := hpos h; constructor <;> omega
  have hnabs : |n| ≤ 2 ^ 53 := by rw [abs_le]; constructor <;> omega
  have hn1abs : |n - 1| ≤ 2 ^ 53 := by rw [abs_le]; constructor <;> omega
  obtain ⟨hsd, hsv⟩ := ofInt_val hsec
  obtain ⟨hnd, hnv⟩ := ofInt_val hnsec
  obtain ⟨h9d, h9v⟩ := ofInt_val (by norm_num : |(1000000000 : ℤ)| ≤ 2 ^ 53)
  obtain ⟨hNd, hNv⟩ := ofInt_val hnabs
  have h9pos : 0 < (Float64.ofInt 1000000000).val := by rw [h9v]; norm_num
  obtain ⟨Nx, Dx, hDx, hqx, hX⟩ := div_round hnd h9d h9pos
  obtain ⟨hXd, hXlo, hXhi, hXerr⟩ := round_spec Nx hDx
  rw [← hX] at hXd hXlo hXhi hXerr
  rw [hqx, hnv, h9v] at hXlo hXhi hXerr
  obtain ⟨Ns, Ds, hDs, hqs, hS⟩ := add_round hsd hXd
  obtain ⟨hSd, hSlo, hShi, hSerr⟩ := round_spec Ns hDs
  rw [← hS] at hSd hSlo hShi hSerr
  rw [hqs, hsv] at hSlo hShi hSerr
  have hSeq : Seconds d = Float64.add (Float64.ofInt (Int.tdiv d 1000000000))
      (Float64.div (Float64.ofInt (Int.tmod d 1000000000)) (Float64.ofInt 1000000000)) := rfl
  rw [hSeq, ge_iff hSd hNd, hNv]
  generalize Float64.add (Float64.ofInt (Int.tdiv d 1000000000))
    (Float64.div (Float64.ofInt (Int.tmod d 1000000000)) (Float64.ofInt 1000000000)) = S
    at hSd hSlo hShi hSerr ⊢
  generalize Float64.div (Float64.ofInt (Int.tmod d 1000000000))
    (Float64.ofInt 1000000000) = X at hXd hXlo hXhi hXerr hSlo hShi hSerr
  generalize Int.tdiv d 1000000000 = sec at *
  generalize Int.tmod d 1000000000 = nsec at *
  have hcast : ((1000000000 : ℤ) : ℚ) = 1000000000 := by norm_num
  rw [hcast] at hXlo hXhi hXerr
  have hqlt : |(nsec : ℚ) / 1000000000| < (2 : ℚ) ^ 0 := by
    rw [abs_lt, pow_zero, lt_div_iff₀ (by norm_num), div_lt_iff₀ (by norm_num)]
    rcases lt_or_le d 0 with h | h
    · have := hneg h
      constructor
      · have : (-1000000000 : ℤ) < nsec := by omega
        have : ((-1000000000 : ℤ) : ℚ) < (nsec : ℚ) := by exact_mod_cast this
        push_cast at this; linarith
      · have : nsec < (1000000000 : ℤ) := by omega
        have : (nsec : ℚ) < ((1000000000 : ℤ) : ℚ) := by exact_mod_cast this
        push_cast at this; linarith
    · have := hpos h
      constructor
      · have : (-1000000000 : ℤ) < nsec := by omega
        have : ((-1000000000 : ℤ) : ℚ) < (nsec : ℚ) := by exact_mod_cast this
        push_cast at this; linarith
      · have : nsec < (1000000000 : ℤ) := by omega
        have : (nsec : ℚ) < ((1000000000 : ℤ) : ℚ) := by exact_mod_cast this
        push_cast at this; linarith
  have hxe := abs_le.1 (hXerr 0 hqlt)
  have hx0 : (0 : ℤ) ≤ nsec → (0 : ℚ) ≤ X.val := by
    intro h
    have hq : (0 : ℚ) ≤ (nsec : ℚ) / 1000000000 := by
      have : (0 : ℚ) ≤ (nsec : ℚ) := by exact_mod_cast h
      positivity
    have := hXlo 0 (by norm_num) (by push_cast; exact hq)
    exact_mod_cast this
  have hx0' : nsec ≤ (0 : ℤ) → X.val ≤ (0 : ℚ) := by
    intro h
    have hq : (nsec : ℚ) / 1000000000 ≤ 0 := by
      have : (nsec : ℚ) ≤ 0 := by exact_mod_cast h
      exact div_nonpos_of_nonpos_of_nonneg this (by norm_num)
    have := hXhi 0 (by norm_num) (by push_cast; exact hq)
    exact_mod_cast this
  have hnq : (n : ℚ) ≤ 2 ^ 24 := by exact_mod_cast hn.2
  have hnq' : -(2 : ℚ) ^ 24 + 1 ≤ (n : ℚ) := by
    have : -(2 : ℤ) ^ 24 + 1 ≤ n := by omega
    exact_mod_cast this
  have hnsq : (nsec : ℚ) < 1000000000 ∧ (-1000000000 : ℚ) < (nsec : ℚ) := by
    rw [abs_lt, pow_zero, lt_div_iff₀ (by norm_num), div_lt_iff₀ (by norm_num)] at hqlt
    constructor <;> linarith [hqlt.1, hqlt.2]
  rcases lt_trichotomy sec n with hlt | heq | hgt
  · -- sec < n
    have hsn : (sec : ℚ) ≤ (n : ℚ) - 1 := by
      have : sec ≤ n - 1 := by omega
      exact_mod_cast this
    have hfalse : ¬ n * 1000000000 ≤ d := by
      rcases lt_or_le d 0 with h | h
      · have := hneg h; omega
      · have := hpos h; omega
    refine iff_of_false ?_ hfalse
    rw [not_le]
    rcases le_or_lt nsec 0 with h0 | h0
    · have hx := hx0' h0
      have := hShi (n - 1) hn1abs (by push_cast; linarith)
      push_cast at this
      linarith
    · have hd0 : 0 ≤ d := by
        by_contra hc
        have := hneg (by omega)
        omega
      have hs0 : (0 : ℚ) ≤ (sec : ℚ) := by
        have := hpos hd0
        have : 0 ≤ sec := by omega
        exact_mod_cast this
      have hx := hx0 h0.le
      have hns1 : (nsec : ℚ) ≤ 1000000000 - 1 := by
        have := hpos hd0
        have : nsec ≤ 1000000000 - 1 := by omega
        exact_mod_cast this
      have hxup : X.val ≤ (1000000000 - 1) / 1000000000 + 1 / 2 ^ 54 := by
        have h1 : (nsec : ℚ) / 1000000000 ≤ (1000000000 - 1) / 1000000000 := by
          apply div_le_div_of_nonneg_right hns1 (by norm_num)
        have h2 := hxe.2
        norm_num at h2 ⊢
        linarith
      have hqs24 : |(sec : ℚ) + X.val| < (2 : ℚ) ^ 24 := by
        rw [abs_lt]
        constructor
        · have : (0 : ℚ) < (2 : ℚ) ^ 24 := by positivity
          linarith
        · norm_num at hxup ⊢
          norm_num at hnq
          linarith
      have he := (abs_le.1 (hSerr 24 hqs24)).2
      norm_num at he hxup
      linarith
  · -- sec = n
    subst heq
    rcases lt_or_le nsec 0 with h0 | h0
    · have hfalse : ¬ sec * 1000000000 ≤ d := by omega
      refine iff_of_false ?_ hfalse
      rw [not_le]
      have hx := hx0' h0.le
      have hns1 : (nsec : ℚ) ≤ -1 := by
        have : nsec ≤ -1 := by omega
        exact_mod_cast this
      have hxup : X.val ≤ -1 / 1000000000 + 1 / 2 ^ 54 := by
        have h1 : (nsec : ℚ) / 1000000000 ≤ -1 / 1000000000 := by
          apply div_le_div_of_nonneg_right hns1 (by norm_num)
        have h2 := hxe.2
        norm_num at h2 ⊢
        linarith
      have hxlo : -1 < X.val := by
        have h1 : (-1000000000 + 1 : ℚ) / 1000000000 ≤ (nsec : ℚ) / 1000000000 := by
          have : (-1000000000 + 1 : ℚ) ≤ (nsec : ℚ) := by
            have hh := hneg (by
              by_contra hc
              have := hpos (by omega)
              omega)
            have : (-1000000000 + 1 : ℤ) ≤ nsec := by omega
            exact_mod_cast this
          exact div_le_div_of_nonneg_right this (by norm_num)
        have h2 := hxe.1
        norm_num at h2 h1
        linarith
      have hqs24 : |(sec : ℚ) + X.val| < (2 : ℚ) ^ 24 := by
        rw [abs_lt]
        constructor
        · norm_num at hnq' ⊢
          linarith
        · norm_num at hnq ⊢
          linarith
      have he := (abs_le.1 (hSerr 24 hqs24)).2
      norm_num at he hxup
      linarith
    · have htrue : sec * 1000000000 ≤ d := by omega
      refine iff_of_true ?_ htrue
      have hx := hx0 h0
      exact hSlo sec hnabs (by linarith)
  · -- n < sec
    have hsn : (n : ℚ) + 1 ≤ (sec : ℚ) := by
      have : n + 1 ≤ sec := by omega
      exact_mod_cast this
    have htrue : n * 1000000000 ≤ d := by
      rcases lt_or_le d 0 with h | h
      · have := hneg h; omega
      · have := hpos h; omega
    refine iff_of_true ?_ htrue
    have hxlo : -1 ≤ X.val := by
      have h1 : (-1 : ℚ) + 1 / 1000000000 ≤ (nsec : ℚ) / 1000000000 := by
        rw [le_div_iff₀ (by norm_num)]
        have : (-1000000000 + 1 : ℤ) ≤ nsec := by
          rcases lt_or_le d 0 with h | h
          · have := hneg h; omega
          · have := hpos h; omega
        have : ((-1000000000 + 1 : ℤ) : ℚ) ≤ (nsec : ℚ) := by exact_mod_cast this
        push_cast at this
        linarith
      have h2 := hxe.1
      norm_num at h2 h1
      linarith
    exact hSlo n hnabs (by linarith)

/-- The duration `time.Since` is within the range of `int64`, and it reaches
a deadline of at most `2 ^ 24` seconds in magnitude exactly when the
difference of the clock readings does. -/
theorem since_spec (start now : ℤ) :
    (-(2 ^ 63) ≤ Since start now ∧ Since start now ≤ 2 ^ 63 - 1) ∧
    ∀ n : ℤ, -(2 ^ 24) < n ∧ n ≤ 2 ^ 24 →
      (n * 1000000000 ≤ Since start now ↔ n * 1000000000 ≤ now - start) := by
  unfold Since
  simp only
  split
  · refine ⟨by constructor <;> omega, fun n hn => ?_⟩
    constructor <;> intro h <;> omega
  · split
    · refine ⟨by constructor <;> omega, fun n hn => ?_⟩
      constructor <;> intro h <;> omega
    · refine ⟨by constructor <;> omega, fun n hn => Iff.rfl⟩

/-! ## Properties of one tick -/

/-- The fan-out holds only launcher spawns and counter increments. -/
theorem mem_fanOut {cfg : Config} {results : List String} {e : Event}
    (h : e ∈ fanOut cfg results) :
    (∃ profile, e = Event.spawnMmfunc profile (defaultMmfImages cfg)) ∨
      e = Event.Increment "concurrentMMFs" := by
  unfold fanOut at h
  rw [List.mem_flatMap] at h
  obtain ⟨profile, -, hp⟩ := h
  simp only [List.mem_cons, List.mem_singleton, List.not_mem_nil, or_false] at hp
  rcases hp with hp | hp
  · exact Or.inl ⟨profile, hp⟩
  · exact Or.inr hp

/-- The fan-out does not check the proposal queue. -/
theorem count_not_mem_fanOut (cfg : Config) (results : List String) :
    Event.Count ∉ fanOut cfg results := by
  intro h
  rcases mem_fanOut h with ⟨_, h⟩ | h <;> cases h

/-- The fan-out launches no evaluator. -/
theorem fanOut_no_evaluator (cfg : Config) (results : List String) :
    ∀ e ∈ fanOut cfg results, e.isSpawnEvaluator = false := by
  intro e h
  rcases mem_fanOut h with ⟨_, h⟩ | h <;> subst h <;> rfl

/-- The four ways a tick that does not panic can go. -/
theorem tick_cases {cfg : Config} {st st2 : State} {inp : TickInput} {evs : List Event}
    (h : tick cfg st inp = some (st2, evs)) :
    ∃ results, inp.spop = .ok results ∧
      ((inp.concurrentMMFs = nilReply ∧ st2 = { st with start := inp.resetNow } ∧
          evs = fanOut cfg results ++ [Event.Retrieve "concurrentMMFs"] ++
            [Event.resetClock inp.resetNow, Event.Sleep 1000]) ∨
        (∃ e, inp.concurrentMMFs = .error e ∧ e ≠ "redigo: nil returned" ∧ st2 = st ∧
          evs = fanOut cfg results ++ [Event.Retrieve "concurrentMMFs"]) ∨
        (∃ r, inp.concurrentMMFs = .ok r ∧
          (trigger cfg st.checkProposals (Since st.start inp.sinceNow) (Atoi r).1).1 = true ∧
          st2 = { start := inp.resetNow, checkProposals := false } ∧
          evs = fanOut cfg results ++ [Event.Retrieve "concurrentMMFs"] ++ [Event.Count] ++
            launchOn cfg (trigger cfg st.checkProposals (Since st.start inp.sinceNow) (Atoi r).1).2
              inp.proposals ++
            [Event.Delete "concurrentMMFs", Event.resetClock inp.resetNow, Event.Sleep 1000]) ∨
        (∃ r, inp.concurrentMMFs = .ok r ∧
          (trigger cfg st.checkProposals (Since st.start inp.sinceNow) (Atoi r).1).1 = false ∧
          st2 = st ∧
          evs = fanOut cfg results ++ [Event.Retrieve "concurrentMMFs"] ++ [Event.Sleep 1000])) := by
  unfold tick at h
  split at h
  · cases h
  · rename_i results hpop
    refine ⟨results, hpop, ?_⟩
    split at h
    · rename_i e hread
      split at h
      · rename_i he
        simp only [Option.some.injEq, Prod.mk.injEq] at h
        subst he
        exact Or.inl ⟨hread, h.1.symm, h.2.symm⟩
      · rename_i he
        simp only [Option.some.injEq, Prod.mk.injEq] at h
        exact Or.inr (Or.inl ⟨e, hread, he, h.1.symm, h.2.symm⟩)
    · rename_i r hread
      simp only at h
      split at h
      · rename_i hf
        simp only [Option.some.injEq, Prod.mk.injEq] at h
        exact Or.inr (Or.inr (Or.inl ⟨r, hread, hf, h.1.symm, h.2.symm⟩))
      · rename_i hf
        simp only [Option.some.injEq, Prod.mk.injEq] at h
        exact Or.inr (Or.inr (Or.inr ⟨r, hread, by simpa using hf, h.1.symm, h.2.symm⟩))

/-- The switch sets `checkProposals` exactly when the deadline test succeeds,
no launcher is counted as running, or `checkProposals` was set before. -/
theorem trigger_fst (cfg : Config) (checkProposals : Bool) (elapsed numRunning : Int) :
    (trigger cfg checkProposals elapsed numRunning).1 = true ↔
      Float64.ge (Seconds elapsed) (Float64.ofInt cfg.intervalEvaluator) = true ∨
        numRunning ≤ 0 ∨ checkProposals = true := by
  unfold trigger
  split
  · simp [*]
  · split
    · simp [*]
    · simp [*]

/-- An evaluator launch of the proposal switch needs a successful count that
is not zero. -/
theorem mem_launchOn {cfg : Config} {reason : Option String} {p : Except String Int}
    {e : Event} (h : e ∈ launchOn cfg reason p) :
    e = Event.spawnEvaluator reason (defaultEvalImage cfg) ∧ ∃ n, p = .ok n ∧ n ≠ 0 := by
  unfold launchOn at h
  split at h
  · cases h
  · rename_i n
    split at h
    · cases h
    · rename_i hn
      simp only [List.mem_singleton] at h
      exact ⟨h, n, rfl, hn⟩

/-- The proposal switch launches at most one evaluator. -/
theorem launchOn_length (cfg : Config) (reason : Option String) (p : Except String Int) :
    (launchOn cfg reason p).length ≤ 1 := by
  unfold launchOn
  split
  · simp
  · split <;> simp

/-- An evaluator launch of a tick comes from the proposal switch of a tick
whose trigger fired. -/
theorem evaluator_of_tick {cfg : Config} {st st2 : State} {inp : TickInput} {evs : List Event}
    (h : tick cfg st inp = some (st2, evs)) {e : Event} (he : e ∈ evs)
    (hs : e.isSpawnEvaluator = true) :
    (∃ n, inp.proposals = .ok n ∧ n ≠ 0) ∧ Event.Count ∈ evs := by
  obtain ⟨results, -, hc⟩ := tick_cases h
  rcases hc with ⟨-, -, hev⟩ | ⟨_, -, -, -, hev⟩ | ⟨r, -, -, -, hev⟩ | ⟨r, -, -, -, hev⟩
  · subst hev
    simp only [List.mem_append, List.mem_cons, List.mem_singleton, List.not_mem_nil,
      or_false] at he
    rcases he with (he | he) | he | he
    · rw [fanOut_no_evaluator _ _ e he] at hs; cases hs
    · subst he; cases hs
    · subst he; cases hs
    · subst he; cases hs
  · subst hev
    simp only [List.mem_append, List.mem_singleton] at he
    rcases he with he | he
    · rw [fanOut_no_evaluator _ _ e he] at hs; cases hs
    · subst he; cases hs
  · subst hev
    simp only [List.mem_append, List.mem_cons, List.mem_singleton, List.not_mem_nil,
      or_false] at he
    refine ⟨?_, by simp⟩
    rcases he with (((he | he) | he) | he) | he | he | he
    · rw [fanOut_no_evaluator _ _ e he] at hs; cases hs
    · subst he; cases hs
    · subst he; cases hs
    · exact (mem_launchOn he).2
    · subst he; cases hs
    · subst he; cases hs
    · subst he; cases hs
  · subst hev
    simp only [List.mem_append, List.mem_singleton] at he
    rcases he with (he | he) | he
    · rw [fanOut_no_evaluator _ _ e he] at hs; cases hs
    · subst he; cases hs
    · subst he; cases hs

/-- C3: in every tick, with the reply of the cardinality read a cardinality
(not negative), an evaluator is launched only if the read succeeded and
returned a value above 0; when the read fails or returns 0 no evaluator is
launched; and at most one evaluator is launched in the tick. -/
theorem evaluator_needs_proposals (cfg : Config) (st st2 : State) (inp : TickInput)
    (evs : List Event) (h : tick cfg st inp = some (st2, evs))
    (hcard : ∀ n, inp.proposals = .ok n → 0 ≤ n) :
    ((∃ e ∈ evs, e.isSpawnEvaluator = true) → ∃ n, inp.proposals = .ok n ∧ 0 < n) ∧
    (((∃ msg, inp.proposals = .error msg) ∨ inp.proposals = .ok 0) →
      ∀ e ∈ evs, e.isSpawnEvaluator = false) ∧
    (evs.filter Event.isSpawnEvaluator).length ≤ 1 := by
  refine ⟨?_, ?_, ?_⟩
  · rintro ⟨e, he, hs⟩
    obtain ⟨⟨n, hn, hne⟩, -⟩ := evaluator_of_tick h he hs
    exact ⟨n, hn, lt_of_le_of_ne (hcard n hn) (Ne.symm hne)⟩
  · intro hbad e he
    by_contra hs
    obtain ⟨⟨n, hn, hne⟩, -⟩ := evaluator_of_tick h he (by simpa using hs)
    rcases hbad with ⟨msg, hmsg⟩ | h0
    · rw [hmsg] at hn; cases hn
    · rw [h0] at hn; cases hn; exact hne rfl
  · obtain ⟨results, -, hc⟩ := tick_cases h
    have hfan : (fanOut cfg results).filter Event.isSpawnEvaluator = [] := by
      rw [List.filter_eq_nil_iff]
      intro e he
      simp [fanOut_no_evaluator cfg results e he]
    rcases hc with ⟨-, -, hev⟩ | ⟨_, -, -, -, hev⟩ | ⟨r, -, -, -, hev⟩ | ⟨r, -, -, -, hev⟩
    · subst hev; simp [List.filter_append, hfan, List.filter_cons, Event.isSpawnEvaluator]
    · subst hev; simp [List.filter_append, hfan, List.filter_cons, Event.isSpawnEvaluator]
    · subst hev
      simp only [List.filter_append, hfan, List.filter_cons, Event.isSpawnEvaluator,
        List.filter_nil, List.nil_append, List.append_nil, Bool.false_eq_true, if_false]
      exact le_trans (List.length_filter_le _ _) (launchOn_length _ _ _)
    · subst hev; simp [List.filter_append, hfan, List.filter_cons, Event.isSpawnEvaluator]

/-! ## Properties of runs of the loop -/

/-- The last reset of a list of events followed by others. -/
theorem lastReset_append (t0 : Int) (xs ys : List Event) :
    lastReset t0 (xs ++ ys) = lastReset (lastReset t0 xs) ys := by
  simp [lastReset, List.foldl_append]

/-- The fan-out does not reset the clock. -/
theorem lastReset_fanOut (cfg : Config) (t0 : Int) (results : List String) :
    lastReset t0 (fanOut cfg results) = t0 := by
  induction results with
  | nil => rfl
  | cons p ps ih =>
    have : fanOut cfg (p :: ps) =
        [Event.spawnMmfunc p (defaultMmfImages cfg), Event.Increment "concurrentMMFs"] ++
          fanOut cfg ps := by
      simp [fanOut]
    rw [this, lastReset_append]
    exact ih

/-- The proposal switch does not reset the clock. -/
theorem lastReset_launchOn (cfg : Config) (t0 : Int) (reason : Option String)
    (p : Except String Int) : lastReset t0 (launchOn cfg reason p) = t0 := by
  unfold launchOn
  split
  · rfl
  · split <;> rfl

/-- After a tick the variable `start` is the last reset of the tick, or
unchanged when the tick has none. -/
theorem tick_start {cfg : Config} {st st2 : State} {inp : TickInput} {evs : List Event}
    (h : tick cfg st inp = some (st2, evs)) : st2.start = lastReset st.start evs := by
  obtain ⟨results, -, hc⟩ := tick_cases h
  rcases hc with ⟨-, hst, hev⟩ | ⟨_, -, -, hst, hev⟩ | ⟨r, -, -, hst, hev⟩ | ⟨r, -, -, hst, hev⟩
  · subst hev hst
    simp only [lastReset_append, lastReset_fanOut]
    rfl
  · subst hev hst
    simp only [lastReset_append, lastReset_fanOut]
    rfl
  · subst hev hst
    simp only [lastReset_append, lastReset_fanOut, lastReset_launchOn]
    rfl
  · subst hev hst
    simp only [lastReset_append, lastReset_fanOut]
    rfl

/-- After a tick `checkProposals` is set exactly when it was set before and
the tick did not reach the trigger evaluation. -/
theorem tick_checkProposals {cfg : Config} {st st2 : State} {inp : TickInput}
    {evs : List Event} (h : tick cfg st inp = some (st2, evs)) :
    st2.checkProposals = true ↔ st.checkProposals = true ∧ inp.reachesTrigger = false := by
  obtain ⟨results, -, hc⟩ := tick_cases h
  rcases hc with ⟨hr, hst, -⟩ | ⟨_, hr, -, hst, -⟩ | ⟨r, hr, -, hst, -⟩ | ⟨r, hr, hf, hst, -⟩
  · subst hst
    simp [TickInput.reachesTrigger, hr, nilReply]
  · subst hst
    simp [TickInput.reachesTrigger, hr]
  · subst hst
    simp [TickInput.reachesTrigger, hr]
  · rw [hst]
    have hcp : ¬ st.checkProposals = true := fun hcp => by
      have ht := (trigger_fst cfg st.checkProposals (Since st.start inp.sinceNow) (Atoi r).1).2
        (Or.inr (Or.inr hcp))
      rw [hf] at ht
      cases ht
    simp [TickInput.reachesTrigger, hr, hcp]

/-- After a run the variable `start` is the last reset of the run and
`checkProposals` is set exactly when it was set at the beginning and no tick
reached the trigger evaluation. -/
theorem run_state {cfg : Config} {pre : List TickInput} :
    ∀ {s st : State} {tr : List (List Event)}, run cfg s pre = some (st, tr) →
      st.start = lastReset s.start tr.flatten ∧
      (st.checkProposals = true ↔
        s.checkProposals = true ∧ ∀ p ∈ pre, p.reachesTrigger = false) := by
  induction pre with
  | nil =>
    intro s st tr h
    simp only [run, Option.some.injEq, Prod.mk.injEq] at h
    obtain ⟨rfl, rfl⟩ := h
    simp [lastReset]
  | cons inp rest ih =>
    intro s st tr h
    unfold run at h
    split at h
    · cases h
    · rename_i st1 evs htick
      split at h
      · cases h
      · rename_i fin tr1 hrest
        simp only [Option.some.injEq, Prod.mk.injEq] at h
        obtain ⟨rfl, rfl⟩ := h
        obtain ⟨h1, h2⟩ := ih hrest
        refine ⟨?_, ?_⟩
        · rw [List.flatten_cons, lastReset_append, ← tick_start htick]
          exact h1
        · rw [h2, tick_checkProposals htick]
          simp only [List.mem_cons, forall_eq_or_imp]
          tauto

/-- A tick whose pop and counter read succeed does not panic, and its
trigger fires exactly when the switch sets `checkProposals`. -/
theorem tick_reaching (cfg : Config) (st : State) (inp : TickInput) {results : List String}
    {r : String} (hpop : inp.spop = .ok results) (hread : inp.concurrentMMFs = .ok r) :
    ∃ st2 evs, tick cfg st inp = some (st2, evs) ∧
      (Event.Count ∈ evs ↔
        (trigger cfg st.checkProposals (Since st.start inp.sinceNow) (Atoi r).1).1 = true) := by
  have hno := count_not_mem_fanOut cfg results
  by_cases hf : (trigger cfg st.checkProposals (Since st.start inp.sinceNow) (Atoi r).1).1 = true
  · refine ⟨{ start := inp.resetNow, checkProposals := false },
      fanOut cfg results ++ [Event.Retrieve "concurrentMMFs"] ++ [Event.Count] ++
        launchOn cfg (trigger cfg st.checkProposals (Since st.start inp.sinceNow) (Atoi r).1).2
          inp.proposals ++
        [Event.Delete "concurrentMMFs", Event.resetClock inp.resetNow, Event.Sleep 1000],
      by simp only [tick, hpop, hread, hf, if_true], ?_⟩
    simp [hf]
  · refine ⟨st, fanOut cfg results ++ [Event.Retrieve "concurrentMMFs"] ++ [Event.Sleep 1000],
      by simp only [tick, hpop, hread, hf]; rfl, ?_⟩
    simp [hf, hno]

/-- C1, amended: for a deadline interval.evaluator above `-2 ^ 24` and of at
most `2 ^ 24` seconds, in every run of the loop from process start, a tick
that reaches the trigger evaluation (the pop and the read of concurrentMMFs
succeeded) checks the proposal queue if and only if the time elapsed since
the last reset of the deadline clock is at least interval.evaluator seconds,
or the in-flight counter value is at most 0, or no earlier tick of the run
reached the trigger evaluation. -/
theorem trigger_fires_iff (cfg : Config) (t0 : Int) (pre : List TickInput) (st : State)
    (tr : List (List Event)) (inp : TickInput) (results : List String) (r : String)
    (hint : -(2 ^ 24) < cfg.intervalEvaluator ∧ cfg.intervalEvaluator ≤ 2 ^ 24)
    (hrun : run cfg (init t0) pre = some (st, tr))
    (hpop : inp.spop = .ok results) (hread : inp.concurrentMMFs = .ok r) :
    ∃ st2 evs, tick cfg st inp = some (st2, evs) ∧
      (Event.Count ∈ evs ↔
        inp.sinceNow - lastReset t0 tr.flatten ≥ cfg.intervalEvaluator * 1000000000 ∨
          (Atoi r).1 ≤ 0 ∨ ∀ p ∈ pre, p.reachesTrigger = false) := by
  obtain ⟨st2, evs, htick, hiff⟩ := tick_reaching cfg st inp hpop hread
  obtain ⟨hstart, hcp⟩ := run_state hrun
  obtain ⟨hrange, hsince⟩ := since_spec st.start inp.sinceNow
  refine ⟨st2, evs, htick, ?_⟩
  rw [hiff, trigger_fst, hcp, deadline_exact hrange hint, hsince _ hint, hstart]
  simp [init]

/-- C5, amended: in every run of the loop, from any state, in which no
profiles are popped and the key concurrentMMFs is absent at every tick, the
run does not panic and every tick only reads the counter, resets the
deadline clock and sleeps one second: no tick checks the proposal queue,
launches an evaluator or deletes the counter, whatever the interval, the
clock readings and the cardinality of the proposal queue. -/
theorem absent_counter_never_evaluates (cfg : Config) (inputs : List TickInput) :
    ∀ (s : State), (∀ inp ∈ inputs, inp.spop = .ok [] ∧ inp.concurrentMMFs = nilReply) →
      ∃ st tr, run cfg s inputs = some (st, tr) ∧
        tr = inputs.map (fun inp =>
          [Event.Retrieve "concurrentMMFs", Event.resetClock inp.resetNow, Event.Sleep 1000]) ∧
        ∀ evs ∈ tr, Event.Count ∉ evs ∧ Event.Delete "concurrentMMFs" ∉ evs ∧
          ∀ e ∈ evs, e.isSpawnEvaluator = false := by
  induction inputs with
  | nil =>
    intro s _
    exact ⟨s, [], rfl, rfl, by simp⟩
  | cons inp rest ih =>
    intro s hall
    obtain ⟨hpop, hread⟩ := hall inp (List.mem_cons_self _ _)
    obtain ⟨st, tr, hrun, htr, hev⟩ :=
      ih { s with start := inp.resetNow } (fun p hp => hall p (List.mem_cons_of_mem _ hp))
    have htick : tick cfg s inp = some ({ s with start := inp.resetNow },
        [Event.Retrieve "concurrentMMFs", Event.resetClock inp.resetNow, Event.Sleep 1000]) := by
      simp [tick, hpop, hread, nilReply, fanOut]
    refine ⟨st, [Event.Retrieve "concurrentMMFs", Event.resetClock inp.resetNow,
      Event.Sleep 1000] :: tr, by simp only [run, htick, hrun], by simp [htr], ?_⟩
    intro evs hmem
    simp only [List.mem_cons] at hmem
    rcases hmem with rfl | hmem
    · simp [Event.isSpawnEvaluator]
    · exact hev evs hmem

/-! ## Properties of `strings.Split` -/

/-- A list without the separator is a single piece. -/
theorem splitChars_of_not_mem {sep : Char} {a : List Char} (h : sep ∉ a) :
    splitChars sep a = [a] := by
  induction a with
  | nil => rfl
  | cons c cs ih =>
    have hc : ¬ c = sep := fun hc => h (by simp [hc])
    have hcs : sep ∉ cs := fun hm => h (List.mem_cons_of_mem _ hm)
    simp [splitChars, hc, ih hcs]

/-- The first piece ends at the first separator. -/
theorem splitChars_append {sep : Char} {a : List Char} (h : sep ∉ a) (l : List Char) :
    splitChars sep (a ++ sep :: l) = a :: splitChars sep l := by
  induction a with
  | nil => simp [splitChars]
  | cons c cs ih =>
    have hc : ¬ c = sep := fun hc => h (by simp [hc])
    have hcs : sep ∉ cs := fun hm => h (List.mem_cons_of_mem _ hm)
    simp [splitChars, hc, ih hcs]

/-- The first two pieces of an entry `moID.proID` followed by nothing or by a
dot and more. -/
theorem Split_two {moID proID tail : String} (hmo : '.' ∉ moID.data)
    (hpro : '.' ∉ proID.data) (htail : tail = "" ∨ ∃ more, tail = "." ++ more) :
    ∃ pieces, Split (moID ++ "." ++ proID ++ tail) '.' = moID :: proID :: pieces := by
  have hdata : (moID ++ "." ++ proID ++ tail).data =
      moID.data ++ '.' :: (proID.data ++ tail.data) := by
    simp [String.data_append]
  unfold Split
  rw [hdata, splitChars_append hmo]
  rcases htail with rfl | ⟨more, rfl⟩
  · refine ⟨[], ?_⟩
    have : proID.data ++ ("" : String).data = proID.data := by simp
    rw [this, splitChars_of_not_mem hpro]
    rfl
  · refine ⟨(splitChars '.' more.data).map String.mk, ?_⟩
    have : proID.data ++ ("." ++ more).data = proID.data ++ '.' :: more.data := by
      simp [String.data_append]
    rw [this, splitChars_append hpro]
    rfl

/-! ## Properties of the launchers -/

/-- What the submission loop sends: create requests for the job name and
the images, and one measure that depends on `err` only. -/
theorem mem_submitAll {env : Env} {err : Option String} {jobName : String}
    {imageNames : List String} {a : Action} (h : a ∈ submitAll env err jobName imageNames) :
    (∃ ns, ∃ imageName ∈ imageNames, a = Action.create ns (generateJobSpec jobName imageName)) ∨
      a = Action.record
        (if err.isSome then Measure.mmforcMmfFailures else Measure.mmforcMmfs) := by
  induction imageNames with
  | nil => cases h
  | cons imageName rest ih =>
    simp only [submitAll, submitJob, List.mem_append, List.mem_singleton, List.mem_cons,
      List.not_mem_nil, or_false] at h
    rcases h with (h | h) | h
    · exact Or.inl ⟨_, imageName, by simp, h⟩
    · right
      rw [h]
      split <;> rfl
    · rcases ih h with ⟨ns, i, hi, ha⟩ | ha
      · exact Or.inl ⟨ns, i, List.mem_cons_of_mem _ hi, ha⟩
      · exact Or.inr ha

/-- The worker launcher on an entry `moID.proID`, followed by nothing or by a
dot and more: it reads the key `proID` and submits the selected images under
the job name made of the timestamp, `moID` and `proID`. -/
theorem mmfunc_eq (env : Env) (cfg : Config) (unixNow : Int) {moID proID tail : String}
    (imageNames : List String) (hmo : '.' ∉ moID.data) (hpro : '.' ∉ proID.data)
    (htail : tail = "" ∨ ∃ more, tail = "." ++ more) :
    mmfunc env cfg unixNow (moID ++ "." ++ proID ++ tail) imageNames =
      some (Action.retrieve proID ::
        submitAll env (errorOf (env.Retrieve proID))
          (Itoa unixNow ++ "." ++ moID ++ "." ++ proID)
          (resolveImages cfg (env.Retrieve proID) imageNames)) := by
  obtain ⟨pieces, hsplit⟩ := Split_two hmo hpro htail
  unfold mmfunc
  rw [hsplit]

/-- The iterator of the image selection keeps the last value only. -/
theorem foldl_last (f : JValue → String) :
    ∀ (l : List JValue) (acc : List String) (hne : l ≠ []),
      l.foldl (fun _ name => [f name]) acc = [f (l.getLast hne)]
  | [], _, hne => absurd rfl hne
  | [x], _, _ => rfl
  | x :: y :: rest, _, _ => by
    rw [List.foldl_cons, foldl_last f (y :: rest) _ (by simp)]
    simp [List.getLast_cons]

/-- C6, amended: for every payload that is valid JSON and whose value at the
configured images path is a JSON array of strings with at least one
element, the image selection of `mmfunc` returns a list of exactly one
element, the last element of the array. -/
theorem resolve_array_of_strings (cfg : Config) (profile : Payload) (imageNames : List String)
    (raw : String) (names : List String) (hne : names ≠ [])
    (hvalid : profile.Valid = true)
    (hget : profile.Get cfg.jsonkeysMmfImages = some (.arr raw (names.map JValue.str))) :
    resolveImages cfg (.ok profile) imageNames = [names.getLast hne] := by
  have hne2 : names.map JValue.str ≠ [] := by simpa using hne
  have hlast : (names.map JValue.str).getLast hne2 = JValue.str (names.getLast hne) := by
    rw [List.getLast_map]
  simp only [resolveImages, hvalid, hget, Result.Exists, Result.Type, GType.name,
    Result.ForEach, Option.isSome_some, Bool.and_self, if_true]
  rw [foldl_last JValue.String _ _ hne2, hlast]
  rfl

/-- C7, amended: for every default list, the image selection of `mmfunc`
returns exactly the default list whenever the store read fails, the payload
is not valid JSON, the images path is missing, or the value at the images
path is a number, a boolean or null. -/
theorem resolve_defaults (cfg : Config) (r : Except String Payload) (imageNames : List String)
    (h : (∃ msg, r = .error msg) ∨
      ∃ profile, r = .ok profile ∧
        (profile.Valid = false ∨ profile.Get cfg.jsonkeysMmfImages = none ∨
          profile.Get cfg.jsonkeysMmfImages = some .null ∨
          (∃ b, profile.Get cfg.jsonkeysMmfImages = some (.bool b)) ∨
          ∃ text, profile.Get cfg.jsonkeysMmfImages = some (.num text))) :
    resolveImages cfg r imageNames = imageNames := by
  rcases h with ⟨msg, rfl⟩ | ⟨profile, rfl, h⟩
  · rfl
  · rcases h with h | h | h | ⟨b, h⟩ | ⟨text, h⟩
    · simp [resolveImages, h]
    · simp [resolveImages, h, Result.Exists]
    · simp [resolveImages, h, Result.Type, GType.name]
    · cases b <;> simp [resolveImages, h, Result.Type, GType.name]
    · simp [resolveImages, h, Result.Type, GType.name]

/-- C8, amended: for every queue entry that contains a dot, with `moID` the
part before the first dot and `proID` the part between the first dot and the
next one (or the end of the entry), the worker launcher reads the payload
from the store key `proID` and from no other key and names every job it
submits `<unix-seconds>.<moID>.<proID>`; when the entry has no second dot
that name is the timestamp, a dot and the unmodified entry; and the
evaluator launcher submits one job, named `<unix-seconds>.evaluator`. -/
theorem job_names (env : Env) (cfg : Config) (unixNow : Int) (moID proID tail : String)
    (imageNames : List String) (hmo : '.' ∉ moID.data) (hpro : '.' ∉ proID.data)
    (htail : tail = "" ∨ ∃ more, tail = "." ++ more) :
    (∃ acts, mmfunc env cfg unixNow (moID ++ "." ++ proID ++ tail) imageNames = some acts ∧
      (∀ key, Action.retrieve key ∈ acts ↔ key = proID) ∧
      ∀ ns job, Action.create ns job ∈ acts →
        job.Name = Itoa unixNow ++ "." ++ moID ++ "." ++ proID ∧
        (tail = "" → job.Name = Itoa unixNow ++ "." ++ (moID ++ "." ++ proID ++ tail))) ∧
    ∀ (err : Option String) (imageName : String), ∃ ns m,
      evaluator env err unixNow imageName =
        [Action.create ns (generateJobSpec (Itoa unixNow ++ ".evaluator") imageName),
          Action.record m] := by
  refine ⟨⟨_, mmfunc_eq env cfg unixNow imageNames hmo hpro htail, ?_, ?_⟩, ?_⟩
  · intro key
    constructor
    · intro h
      simp only [List.mem_cons, Action.retrieve.injEq] at h
      rcases h with h | h
      · exact h
      · rcases mem_submitAll h with ⟨_, _, _, ha⟩ | ha <;> cases ha
    · rintro rfl
      simp
  · intro ns job h
    simp only [List.mem_cons] at h
    rcases h with h | h
    · cases h
    · rcases mem_submitAll h with ⟨_, _, _, ha⟩ | ha
      · simp only [Action.create.injEq] at ha
        obtain ⟨-, rfl⟩ := ha
        refine ⟨rfl, ?_⟩
        rintro rfl
        simp [generateJobSpec, String.append_assoc]
      · cases ha
  · intro err imageName
    exact ⟨if env.METADATA_NAMESPACE.length = 0 then "default" else env.METADATA_NAMESPACE,
      if err.isSome then Measure.mmforcEvalFailures else Measure.mmforcEvals, by
        cases err <;> simp [evaluator, submitJob]⟩

/-! ## Scenarios of the loop -/

/-- C1 fails on the first tick after process start: one second after start,
with a deadline of 5 seconds and a counter that reads 3, the tick checks the
proposal queue although neither 5 seconds have elapsed nor the counter is at
most 0. -/
theorem first_tick_fires_without_condition :
    ∃ st2 evs, tick scenarioCfg (init 0) (tickAt 1 (.ok "3")) = some (st2, evs) ∧
      ¬ (Event.Count ∈ evs ↔
        ((tickAt 1 (.ok "3")).sinceNow - (init 0).start ≥
            scenarioCfg.intervalEvaluator * 1000000000 ∨
          (Atoi "3").1 ≤ 0)) := by
  refine ⟨{ start := 1000000000, checkProposals := false },
    [Event.Retrieve "concurrentMMFs", Event.Count,
      Event.spawnEvaluator none "def/evaluator:latest", Event.Delete "concurrentMMFs",
      Event.resetClock 1000000000, Event.Sleep 1000], by decide, by decide⟩

/-- The deadline test is a comparison of `float64` values: with a deadline
of `2 ^ 25` seconds and `checkProposals` not set, a tick one nanosecond
before the deadline with a counter that reads 3 checks the proposal queue,
because `Duration.Seconds` rounds 33554431.999999999 up to 33554432. -/
theorem deadline_fires_one_nanosecond_early :
    ∃ st2 evs, tick longDeadlineCfg { start := 0, checkProposals := false }
        nanosecondEarlyTick = some (st2, evs) ∧
      ¬ (Event.Count ∈ evs ↔
        (nanosecondEarlyTick.sinceNow - 0 ≥ longDeadlineCfg.intervalEvaluator * 1000000000 ∨
          (Atoi "3").1 ≤ 0)) := by
  refine ⟨{ start := 33554431999999999, checkProposals := false },
    [Event.Retrieve "concurrentMMFs", Event.Count,
      Event.spawnEvaluator (some "interval_exceeded") "def/evaluator:latest",
      Event.Delete "concurrentMMFs", Event.resetClock 33554431999999999, Event.Sleep 1000],
    by decide, by decide⟩

/-- C1, witness of the amended claim: after a first tick that reached the
trigger evaluation, a tick two seconds later with a counter that reads 3. -/
theorem trigger_fires_iff_witness :
    run scenarioCfg (init 0) [tickAt 1 (.ok "3")] =
      some ({ start := 1000000000, checkProposals := false },
        [[Event.Retrieve "concurrentMMFs", Event.Count,
          Event.spawnEvaluator none "def/evaluator:latest", Event.Delete "concurrentMMFs",
          Event.resetClock 1000000000, Event.Sleep 1000]]) ∧
    ∃ st2 evs, tick scenarioCfg { start := 1000000000, checkProposals := false }
        (tickAt 3 (.ok "3")) = some (st2, evs) ∧
      (Event.Count ∈ evs ↔
        (tickAt 3 (.ok "3")).sinceNow -
            lastReset 0 [[Event.Retrieve "concurrentMMFs", Event.Count,
              Event.spawnEvaluator none "def/evaluator:latest",
              Event.Delete "concurrentMMFs", Event.resetClock 1000000000,
              Event.Sleep 1000]].flatten ≥ scenarioCfg.intervalEvaluator * 1000000000 ∨
          (Atoi "3").1 ≤ 0 ∨ ∀ p ∈ [tickAt 1 (.ok "3")], p.reachesTrigger = false) :=
  ⟨by decide,
    trigger_fires_iff scenarioCfg 0 [tickAt 1 (.ok "3")] _ _ (tickAt 3 (.ok "3")) [] "3"
      (by decide) (by decide) rfl rfl⟩

/-- C3, witness: a tick whose trigger fires on a proposal queue of
cardinality 2 launches one evaluator. -/
theorem evaluator_needs_proposals_witness :
    tick scenarioCfg (init 0) (tickAt 1 (.ok "0")) =
      some ({ start := 1000000000, checkProposals := false },
        [Event.Retrieve "concurrentMMFs", Event.Count,
          Event.spawnEvaluator (some "mmfs_completed") "def/evaluator:latest",
          Event.Delete "concurrentMMFs", Event.resetClock 1000000000, Event.Sleep 1000]) ∧
    ([Event.Retrieve "concurrentMMFs", Event.Count,
        Event.spawnEvaluator (some "mmfs_completed") "def/evaluator:latest",
        Event.Delete "concurrentMMFs", Event.resetClock 1000000000,
        Event.Sleep 1000].filter Event.isSpawnEvaluator).length ≤ 1 :=
  ⟨by decide,
    (evaluator_needs_proposals scenarioCfg (init 0) _ (tickAt 1 (.ok "0")) _
      (by decide : tick scenarioCfg (init 0) (tickAt 1 (.ok "0")) =
        some ({ start := 1000000000, checkProposals := false },
          [Event.Retrieve "concurrentMMFs", Event.Count,
            Event.spawnEvaluator (some "mmfs_completed") "def/evaluator:latest",
            Event.Delete "concurrentMMFs", Event.resetClock 1000000000, Event.Sleep 1000]))
      (fun n hn => by cases hn; decide)).2.2⟩

/-- C5 fails on its own scenario: with a deadline of 5 seconds, a proposal
queue of cardinality 2, no profile popped and the key concurrentMMFs absent,
the run of ten one-second ticks does not panic and no tick launches an
evaluator or deletes the counter, the tick at 5 seconds included. -/
theorem deadline_scenario_launches_nothing :
    (run scenarioCfg (init 0) deadlineTicks).map
        (fun out => out.2.map fun evs =>
          ((evs.filter Event.isSpawnEvaluator).length,
            decide (Event.Delete "concurrentMMFs" ∈ evs))) =
      some (List.replicate 10 (0, false)) ∧
    ¬ ((run scenarioCfg (init 0) deadlineTicks).map
        (fun out => (out.2.get? 4).map fun evs =>
          (evs.filter Event.isSpawnEvaluator).length) = some (some 1)) := by
  decide

/-- C5, witness of the amended claim: the ten ticks of the deadline
scenario. -/
theorem absent_counter_never_evaluates_witness :
    ∃ st tr, run scenarioCfg (init 0) deadlineTicks = some (st, tr) ∧
      tr = deadlineTicks.map (fun inp =>
        [Event.Retrieve "concurrentMMFs", Event.resetClock inp.resetNow, Event.Sleep 1000]) ∧
      ∀ evs ∈ tr, Event.Count ∉ evs ∧ Event.Delete "concurrentMMFs" ∉ evs ∧
        ∀ e ∈ evs, e.isSpawnEvaluator = false :=
  absent_counter_never_evaluates scenarioCfg deadlineTicks (init 0) (fun inp h => by
    simp only [deadlineTicks, List.mem_map] at h
    obtain ⟨k, -, rfl⟩ := h
    exact ⟨rfl, rfl⟩)

/-! ## Scenarios of the launchers -/

/-- C4 fails on a payload with an empty image array: the popped entry
`moA.prA` is consumed, the launcher reads its payload and returns without a
panic and without a single job-create request, although the default list
is not empty. -/
theorem empty_array_submits_nothing :
    mmfunc (storeWith "prA" emptyArrayPayload none) scenarioCfg 1541030400 "moA.prA"
        (defaultMmfImages scenarioCfg) = some [Action.retrieve "prA"] ∧
    defaultMmfImages scenarioCfg = ["def/mmf:latest"] := by
  decide

/-- C6 fails on the empty array: the payload is valid, the value at the
images path is an array all of whose elements are strings, and the image
selection returns the empty list. -/
theorem empty_array_resolves_to_nothing :
    emptyArrayPayload.Valid = true ∧
    emptyArrayPayload.Get scenarioCfg.jsonkeysMmfImages =
      some (.arr "[]" (([] : List String).map JValue.str)) ∧
    resolveImages scenarioCfg (.ok emptyArrayPayload) ["def/mmf:latest"] = [] :=
  ⟨rfl, rfl, by decide⟩

/-- C6, witness of the amended claim: the array payload of scenario 3
selects the image `c:3`. -/
theorem resolve_array_of_strings_witness :
    resolveImages scenarioCfg (.ok threeImagesPayload) ["def/mmf:latest"] = ["c:3"] :=
  resolve_array_of_strings scenarioCfg threeImagesPayload ["def/mmf:latest"]
    "[\"a:1\",\"b:2\",\"c:3\"]" ["a:1", "b:2", "c:3"] (by simp) rfl rfl

/-- C7 fails on an object and on an array of numbers at the images path: the
image selection returns the text of the last member or element, not the
default list. -/
theorem object_and_numbers_not_defaults :
    resolveImages scenarioCfg (.ok objectPayload) ["def/mmf:latest"] = ["reg/foo:1"] ∧
    resolveImages scenarioCfg (.ok numberArrayPayload) ["def/mmf:latest"] = ["2"] ∧
    ["reg/foo:1"] ≠ ["def/mmf:latest"] ∧ ["2"] ≠ ["def/mmf:latest"] := by
  decide

/-- C7, witness of the amended claim: the payload `not json` of scenario 2
selects the default image. -/
theorem resolve_defaults_witness :
    resolveImages scenarioCfg (.ok notJsonPayload) ["def/mmf:latest"] = ["def/mmf:latest"] :=
  resolve_defaults scenarioCfg (.ok notJsonPayload) ["def/mmf:latest"]
    (Or.inr ⟨notJsonPayload, rfl, Or.inl rfl⟩)

/-- C8 fails on the entry `a.b.c`: the launcher reads the key `b`, not `b.c`,
and names the job `<unix-seconds>.a.b`, not `<unix-seconds>.a.b.c`. -/
theorem second_dot_is_cut :
    mmfunc (storeWith "b" singleImagePayload none) scenarioCfg 1541030400 "a.b.c"
        ["def/mmf:latest"] =
      some [Action.retrieve "b",
        Action.create "default" (generateJobSpec "1541030400.a.b" "reg/foo:1"),
        Action.record Measure.mmforcMmfs] ∧
    "b" ≠ "b.c" ∧ "1541030400.a.b" ≠ Itoa 1541030400 ++ "." ++ "a.b.c" := by
  decide

/-- C8, witness of the amended claim: the entry `moA.prA` of scenario 1. -/
theorem job_names_witness :
    (∃ acts, mmfunc (storeWith "prA" singleImagePayload none) scenarioCfg 1541030400
        ("moA" ++ "." ++ "prA" ++ "") ["def/mmf:latest"] = some acts ∧
      (∀ key, Action.retrieve key ∈ acts ↔ key = "prA") ∧
      ∀ ns job, Action.create ns job ∈ acts →
        job.Name = Itoa 1541030400 ++ "." ++ "moA" ++ "." ++ "prA" ∧
        (("" : String) = "" →
          job.Name = Itoa 1541030400 ++ "." ++ ("moA" ++ "." ++ "prA" ++ ""))) ∧
    ∀ (err : Option String) (imageName : String), ∃ ns m,
      evaluator (storeWith "prA" singleImagePayload none) err 1541030400 imageName =
        [Action.create ns (generateJobSpec (Itoa 1541030400 ++ ".evaluator") imageName),
          Action.record m] :=
  job_names (storeWith "prA" singleImagePayload none) scenarioCfg 1541030400 "moA" "prA" ""
    ["def/mmf:latest"] (by decide) (by decide) (Or.inl rfl)

/-- C10 fails in both launchers: a worker submission whose create request
fails is recorded as a success, a worker submission that succeeds after a
failed payload read is recorded as a failure, and an evaluator submission
whose create request fails is recorded as a success. -/
theorem recorded_outcome_ignores_create :
    (storeWith "prA" singleImagePayload (some "create failed")).Create "default"
        (generateJobSpec "1541030400.moA.prA" "reg/foo:1") = some "create failed" ∧
    emptyStore.Create "default"
        (generateJobSpec "1541030400.moA.prA" "def/mmf:latest") = none ∧
    mmfunc (storeWith "prA" singleImagePayload (some "create failed")) scenarioCfg 1541030400
        "moA.prA" ["def/mmf:latest"] =
      some [Action.retrieve "prA",
        Action.create "default" (generateJobSpec "1541030400.moA.prA" "reg/foo:1"),
        Action.record Measure.mmforcMmfs] ∧
    mmfunc emptyStore scenarioCfg 1541030400 "moA.prA" ["def/mmf:latest"] =
      some [Action.retrieve "prA",
        Action.create "default" (generateJobSpec "1541030400.moA.prA" "def/mmf:latest"),
        Action.record Measure.mmforcMmfFailures] ∧
    evaluator (storeWith "prA" singleImagePayload (some "create failed")) none 1541030400
        "def/evaluator:latest" =
      [Action.create "default" (generateJobSpec "1541030400.evaluator" "def/evaluator:latest"),
        Action.record Measure.mmforcEvals] := by
  decide

end Mmforc
